import Mathlib

/-!
# openapi-model-replace: the chat-completions forwarding pipeline

A shallow embedding of `main.go`: the `POST /v1/chat/completions` handler with
the library calls it makes (`encoding/json`, `net/http`, `gin`) modelled at the
level of their documented behaviour.

Conventions.
* Go `string`s are Lean `String`s (sequences of Unicode scalar values, hence
  always valid UTF-8); JSON texts and the inbound body are such strings.
* Opaque byte sequences (the upstream response body, the body written to the
  caller) are `List UInt8`.
* A Go `map[string]V` is an association list searched from the front; the order
  of the list is the order in which `range` happens to visit the entries.
* The network is a parameter: `Env.Do` gives the outcome of
  `http.DefaultClient.Do` for a request, `Env.parseURL` tells whether
  `http.NewRequest` accepts the URL.
* The response is what the caller is sent: the status line, the header map at
  the moment the header is written without the names `net/http` suppresses for
  the status (`Content-Type` on a 304; `Content-Length` and
  `Transfer-Encoding` on every status without a body), and the body bytes.
  Headers the server adds on its own (`Date`, the `Content-Length` or
  `Transfer-Encoding` it computes for a body) are left out.
* `c.ShouldBind` is modelled for a request with a JSON content type, the case
  the specification describes.
-/

namespace ModelReplace

deriving instance DecidableEq for Except

/-! ## Go maps -/

/-- A Go `map[string]V`. -/
abbrev GoMap (V : Type) := List (String × V)

/-- The comma-ok lookup `v, ok := m[k]`. -/
def GoMap.get? {V : Type} (m : GoMap V) (k : String) : Option V :=
  match m with
  | [] => none
  | (k', v) :: rest => if k' = k then some v else GoMap.get? rest k

/-- The assignment `m[k] = v`. -/
def GoMap.set {V : Type} (m : GoMap V) (k : String) (v : V) : GoMap V :=
  match m with
  | [] => [(k, v)]
  | (k', v') :: rest => if k' = k then (k, v) :: rest else (k', v') :: GoMap.set rest k v

/-- The builtin `delete(m, k)`. -/
def GoMap.del {V : Type} (m : GoMap V) (k : String) : GoMap V :=
  m.filter (fun e => !decide (e.1 = k))

/-- The key set of a map, in iteration order. -/
def GoMap.keys {V : Type} (m : GoMap V) : List String := m.map Prod.fst

/-! ## The data model of `main.go` -/

/-- One element of `OpenAIRequest.Messages`. -/
structure Message where
  Role : String
  Content : String
deriving DecidableEq, Repr

/-- `OpenAIRequest` of `main.go`. `Messages` is a Go slice: `none` is the nil
slice (encoded as `null`), `some l` a non-nil slice with the elements `l`. -/
structure OpenAIRequest where
  Model : String
  Messages : Option (List Message)
  Stream : Bool
deriving DecidableEq, Repr

/-- The zero value `var openAIreq OpenAIRequest`. -/
def OpenAIRequest.zero : OpenAIRequest := ⟨"", none, false⟩

/-- The index expression `MODEL_TABLE[k]` used as a value: the zero value `""`
when the key is absent. -/
def tableIndex (MODEL_TABLE : GoMap String) (k : String) : String :=
  (MODEL_TABLE.get? k).getD ""

/-- Lines 155-161 of `main.go`: `if _, ok := MODEL_TABLE[openAIreq.Model]; ok`
then `openAIreq.Model = MODEL_TABLE[openAIreq.Model]`. -/
def replaceModel (MODEL_TABLE : GoMap String) (openAIreq : OpenAIRequest) : OpenAIRequest :=
  match MODEL_TABLE.get? openAIreq.Model with
  | some _ => { openAIreq with Model := tableIndex MODEL_TABLE openAIreq.Model }
  | none => openAIreq

/-! ## `net/http` headers -/

/-- The type `http.Header`, a `map[string][]string`. -/
abbrev Header := GoMap (List String)

/-- The token bytes of `net/textproto`: letters, digits and the listed
punctuation. -/
def validHeaderFieldByte (c : Char) : Bool :=
  c.isAlphanum || "!#$%&'*+-.^_`|~".data.contains c

/-- The rewriting loop of `textproto.canonicalMIMEHeaderKey`: upper case at the
start and after each dash, lower case elsewhere. -/
def canonLoop : Bool → List Char → List Char
  | _, [] => []
  | upper, c :: r =>
    let c' := if upper && c.isLower then c.toUpper
      else if !upper && c.isUpper then c.toLower else c
    c' :: canonLoop (c' == '-') r

/-- The function `textproto.CanonicalMIMEHeaderKey`: a key holding a byte that is
not a token byte is returned unchanged. -/
def CanonicalMIMEHeaderKey (s : String) : String :=
  if s.data.all validHeaderFieldByte then String.mk (canonLoop true s.data) else s

/-- The method `Header.Add`: append to the values of the canonical key. -/
def Header.Add (h : Header) (key value : String) : Header :=
  let k := CanonicalMIMEHeaderKey key
  GoMap.set h k ((GoMap.get? h k).getD [] ++ [value])

/-- The method `Header.Set`: replace the values of the canonical key. -/
def Header.Set (h : Header) (key value : String) : Header :=
  GoMap.set h (CanonicalMIMEHeaderKey key) [value]

/-- The method `Header.Del`. -/
def Header.Del (h : Header) (key : String) : Header :=
  GoMap.del h (CanonicalMIMEHeaderKey key)

/-- `copyHeaders` of `main.go`: for every key and every value of `src`,
`dest.Add(key, value)`. -/
def copyHeaders (src dest : Header) : Header :=
  src.foldl (fun d kv => kv.2.foldl (fun d value => Header.Add d kv.1 value) d) dest

/-! ## `encoding/json`: encoding -/

/-- The digit table `hex` of `encoding/json`. -/
def hexDigit (n : Nat) : Char := "0123456789abcdef".data.getD n '0'

/-- The escape `appendString` writes for one character with `escapeHTML` on, as
`json.Marshal` sets it: the two-character escapes, `\u00XX` for the other
control characters and for `<`, `>`, `&`, `\u202X` for U+2028 and U+2029, and
the character itself otherwise. -/
def escapeChar (c : Char) : List Char :=
  if c = '\\' ∨ c = '"' then ['\\', c]
  else if c = '\x08' then ['\\', 'b']
  else if c = '\x0c' then ['\\', 'f']
  else if c = '\n' then ['\\', 'n']
  else if c = '\r' then ['\\', 'r']
  else if c = '\t' then ['\\', 't']
  else if c.toNat < 0x20 ∨ c = '<' ∨ c = '>' ∨ c = '&' then
    ['\\', 'u', '0', '0', hexDigit (c.toNat / 16), hexDigit (c.toNat % 16)]
  else if c.toNat = 0x2028 ∨ c.toNat = 0x2029 then
    ['\\', 'u', '2', '0', '2', hexDigit (c.toNat % 16)]
  else [c]

/-- `appendString`: a quoted JSON string literal. -/
def appendString (s : String) : List Char :=
  '"' :: (s.data.flatMap escapeChar ++ ['"'])

/-- Elements separated by commas. -/
def joinComma : List (List Char) → List Char
  | [] => []
  | x :: rest => x ++ rest.flatMap (fun y => ',' :: y)

/-- The struct encoder for one message: the fields in declaration order under
their tag names. -/
def marshalMessage (m : Message) : List Char :=
  "\x7b\"role\":".data ++ appendString m.Role ++ ",\"content\":".data
    ++ appendString m.Content ++ ['\x7d']

/-- The slice encoder: `null` for the nil slice, a bracketed list otherwise. -/
def marshalMessages : Option (List Message) → List Char
  | none => "null".data
  | some l => '[' :: (joinComma (l.map marshalMessage) ++ [']'])

/-- The bool encoder. -/
def marshalBool (b : Bool) : List Char := if b then "true".data else "false".data

/-- The text `json.Marshal(openAIreq)` produces. -/
def marshalText (r : OpenAIRequest) : List Char :=
  "\x7b\"model\":".data ++ appendString r.Model ++ ",\"messages\":".data
    ++ marshalMessages r.Messages ++ ",\"stream\":".data ++ marshalBool r.Stream ++ ['\x7d']

/-- `json.Marshal(openAIreq)`. No value of this struct type makes the encoder
fail, so the result is always `ok`. -/
def jsonMarshal (r : OpenAIRequest) : Except String String :=
  .ok (String.mk (marshalText r))

/-- The values stored in the `gin.H` maps of `main.go`. -/
inductive HValue where
  | str (s : String)
  | int (n : Int)
deriving DecidableEq, Repr

/-- `gin.H`, a `map[string]any`. -/
abbrev H := GoMap HValue

/-- Insertion into a key-sorted entry list. -/
def insertSorted (e : String × HValue) : List (String × HValue) → List (String × HValue)
  | [] => [e]
  | x :: rest => if e.1.data < x.1.data then e :: x :: rest else x :: insertSorted e rest

/-- The entries of a map in key order, as the map encoder visits them. -/
def sortedEntries (h : H) : List (String × HValue) := h.foldr insertSorted []

/-- The encoding of one `gin.H` value. -/
def marshalHValue : HValue → List Char
  | .str s => appendString s
  | .int n => (Int.repr n).data

/-- `json.Marshal` of a `gin.H`: an object with the keys sorted. -/
def marshalH (h : H) : String :=
  String.mk ('\x7b' :: (joinComma ((sortedEntries h).map
    (fun e => appendString e.1 ++ ':' :: marshalHValue e.2)) ++ ['\x7d']))

/-! ## `encoding/json`: decoding

The decoder of `json.NewDecoder(body).Decode(&openAIreq)`, in two steps as in
`encoding/json`: the first JSON value of the input is scanned (a syntax error
leaves the target untouched), then the value is stored into the struct. Error
messages give the kind of the error; the offending character that
`encoding/json` quotes in a syntax error is left out. -/

/-- A scanned JSON value. A number keeps its literal text. -/
inductive Json where
  | null
  | bool (b : Bool)
  | num (lit : List Char)
  | str (s : String)
  | arr (elems : List Json)
  | obj (members : List (String × Json))

/-- The result of reading a prefix of the input: an error message, or the value
read and the rest of the input. -/
abbrev Parse (α : Type) := Except String (α × List Char)

/-- `isSpace` of the scanner. -/
def isSpace (c : Char) : Bool := c == ' ' || c == '\t' || c == '\r' || c == '\n'

/-- Skip insignificant white space. -/
def skipSpace : List Char → List Char
  | [] => []
  | c :: r => if isSpace c then skipSpace r else c :: r

/-- The value of one hexadecimal digit. -/
def hexVal (c : Char) : Option Nat :=
  if '0' ≤ c ∧ c ≤ '9' then some (c.toNat - 48)
  else if 'a' ≤ c ∧ c ≤ 'f' then some (c.toNat - 87)
  else if 'A' ≤ c ∧ c ≤ 'F' then some (c.toNat - 55)
  else none

/-- The value of four hexadecimal digits. -/
def hex4 (a b c d : Char) : Option Nat :=
  match hexVal a, hexVal b, hexVal c, hexVal d with
  | some a, some b, some c, some d => some (((a * 16 + b) * 16 + c) * 16 + d)
  | _, _, _, _ => none

/-- `getu4`: the code unit of a `\uXXXX` escape at the head of the input. -/
def getu4 : List Char → Option Nat
  | bs :: u :: a :: b :: c :: d :: _ => if bs = '\\' ∧ u = 'u' then hex4 a b c d else none
  | _ => none

/-- `utf16.IsSurrogate`. -/
def isSurrogate (n : Nat) : Bool := 0xd800 ≤ n && n < 0xe000

/-- `utf16.DecodeRune`: the scalar value of a surrogate pair, if it is one. -/
def decodeSurrogates (r1 r2 : Nat) : Option Nat :=
  if 0xd800 ≤ r1 ∧ r1 < 0xdc00 ∧ 0xdc00 ≤ r2 ∧ r2 < 0xe000 then
    some ((r1 - 0xd800) * 0x400 + (r2 - 0xdc00) + 0x10000)
  else none

/-- The character of a single-letter escape. -/
def unescape (c : Char) : Option Char :=
  if c = '"' then some '"'
  else if c = '\\' then some '\\'
  else if c = '/' then some '/'
  else if c = 'b' then some '\x08'
  else if c = 'f' then some '\x0c'
  else if c = 'n' then some '\n'
  else if c = 'r' then some '\r'
  else if c = 't' then some '\t'
  else none

/-- Put a character in front of the string read from the rest. -/
def consChar (c : Char) (p : Parse (List Char)) : Parse (List Char) :=
  match p with
  | .error e => .error e
  | .ok (s, rest) => .ok (c :: s, rest)

/-- The contents of a string literal after its opening quote, unquoted as
`unquote` does: escapes are replaced, a surrogate escape that is not followed by
its low half becomes U+FFFD; a control character, a bad escape or the end of the
input is an error. The first argument bounds the recursion. -/
def parseStringBody : Nat → List Char → Parse (List Char)
  | 0, _ => .error "input too long"
  | fuel + 1, s =>
    match s with
    | [] => .error "unexpected EOF"
    | c :: r =>
      if c = '"' then .ok ([], r)
      else if c = '\\' then
        match r with
        | [] => .error "unexpected EOF"
        | e :: r1 =>
          if e = 'u' then
            if r1.length < 4 ∧ r1.all (fun h => (hexVal h).isSome) then .error "unexpected EOF"
            else match getu4 s with
              | none => .error "invalid character in \\u hexadecimal character escape"
              | some rr =>
                if isSurrogate rr then
                  match (getu4 (r1.drop 4)).bind (decodeSurrogates rr) with
                  | some dec => consChar (Char.ofNat dec) (parseStringBody fuel (r1.drop 10))
                  | none => consChar (Char.ofNat 0xfffd) (parseStringBody fuel (r1.drop 4))
                else consChar (Char.ofNat rr) (parseStringBody fuel (r1.drop 4))
          else
            match unescape e with
            | some ch => consChar ch (parseStringBody fuel r1)
            | none => .error "invalid character in string escape code"
      else if c.toNat < 0x20 then .error "invalid character in string literal"
      else consChar c (parseStringBody fuel r)

/-- A string literal after its opening quote; every step of `parseStringBody`
consumes a character, so the length of the input bounds the recursion. -/
def parseString (r : List Char) : Parse (List Char) := parseStringBody (r.length + 1) r

/-- Drop the leading decimal digits. -/
def skipDigits : List Char → List Char
  | [] => []
  | c :: r => if c.isDigit then skipDigits r else c :: r

/-- One digit at least, then any number of digits: the input after them. -/
def scanDigits (msg : String) (s : List Char) : Except String (List Char) :=
  match s with
  | [] => .error "unexpected EOF"
  | c :: r => if c.isDigit then .ok (skipDigits r) else .error msg

/-- The input after the integer part of a number: `0`, or a digit sequence
without leading zero. -/
def scanInt (s : List Char) : Except String (List Char) :=
  match s with
  | [] => .error "unexpected EOF"
  | d :: r =>
    if d = '0' then .ok r
    else if d.isDigit then .ok (skipDigits r)
    else .error "invalid character in numeric literal"

/-- The input after the fraction part of a number, if there is one. -/
def scanFraction (s : List Char) : Except String (List Char) :=
  match s with
  | [] => .ok s
  | p :: r =>
    if p = '.' then scanDigits "invalid character after decimal point in numeric literal" r
    else .ok s

/-- The input after an optional sign. -/
def skipSign (s : List Char) : List Char :=
  match s with
  | [] => s
  | sg :: r => if sg = '+' ∨ sg = '-' then r else s

/-- The input after the exponent part of a number, if there is one. -/
def scanExponent (s : List Char) : Except String (List Char) :=
  match s with
  | [] => .ok s
  | e :: r =>
    if e = 'e' ∨ e = 'E' then
      scanDigits "invalid character in exponent of numeric literal" (skipSign r)
    else .ok s

/-- The input after an optional minus sign. -/
def skipMinus (s : List Char) : List Char :=
  match s with
  | [] => s
  | m :: r => if m = '-' then r else s

/-- The input after a number literal: optional minus, integer part, optional
fraction, optional exponent. -/
def scanNumber (s : List Char) : Except String (List Char) :=
  match scanInt (skipMinus s) with
  | .error e => .error e
  | .ok r1 =>
    match scanFraction r1 with
    | .error e => .error e
    | .ok r2 => scanExponent r2

/-- A number literal: its text and the input after it. -/
def parseNumber (s : List Char) : Parse (List Char) :=
  match scanNumber s with
  | .error e => .error e
  | .ok rest => .ok (s.take (s.length - rest.length), rest)

/-- One of the literals `true`, `false`, `null`: the input must start with the
given word. -/
def parseWord (word : List Char) (v : Json) (s : List Char) : Parse Json :=
  if word.isPrefixOf s then .ok (v, s.drop word.length)
  else if s.length < word.length ∧ s.isPrefixOf word then .error "unexpected EOF"
  else .error "invalid character in literal"

/-- The nesting limit `maxNestingDepth` of the scanner. -/
def maxNestingDepth : Nat := 10000

mutual
/-- One JSON value, white space before it skipped. The first argument bounds the
recursion, the second is the number of containers already open. -/
def parseValue : Nat → Nat → List Char → Parse Json
  | 0, _, _ => .error "input too long"
  | fuel + 1, depth, s =>
    match skipSpace s with
    | [] => .error "unexpected EOF"
    | c :: r =>
      if c = '\x7b' then
        if depth ≥ maxNestingDepth then .error "exceeded max depth"
        else match skipSpace r with
          | [] => .error "unexpected EOF"
          | c1 :: r1 =>
            if c1 = '\x7d' then .ok (Json.obj [], r1)
            else match parseMembers fuel (depth + 1) (c1 :: r1) with
              | .error e => .error e
              | .ok (ms, rest) => .ok (Json.obj ms, rest)
      else if c = '[' then
        if depth ≥ maxNestingDepth then .error "exceeded max depth"
        else match skipSpace r with
          | [] => .error "unexpected EOF"
          | c1 :: r1 =>
            if c1 = ']' then .ok (Json.arr [], r1)
            else match parseElements fuel (depth + 1) (c1 :: r1) with
              | .error e => .error e
              | .ok (es, rest) => .ok (Json.arr es, rest)
      else if c = '"' then
        match parseString r with
        | .error e => .error e
        | .ok (str, rest) => .ok (Json.str (String.mk str), rest)
      else if c = 't' then parseWord "true".data (Json.bool true) (c :: r)
      else if c = 'f' then parseWord "false".data (Json.bool false) (c :: r)
      else if c = 'n' then parseWord "null".data Json.null (c :: r)
      else if c = '-' ∨ c.isDigit then
        match parseNumber (c :: r) with
        | .error e => .error e
        | .ok (lit, rest) => .ok (Json.num lit, rest)
      else .error "invalid character looking for beginning of value"
/-- The members of an object after `\x7b` or `,`, up to and including the
closing brace. -/
def parseMembers : Nat → Nat → List Char → Parse (List (String × Json))
  | 0, _, _ => .error "input too long"
  | fuel + 1, depth, s =>
    match skipSpace s with
    | [] => .error "unexpected EOF"
    | c :: r =>
      if c = '"' then
        match parseString r with
        | .error e => .error e
        | .ok (key, r1) =>
          match skipSpace r1 with
          | [] => .error "unexpected EOF"
          | c1 :: r2 =>
            if c1 = ':' then
              match parseValue fuel depth r2 with
              | .error e => .error e
              | .ok (v, r3) =>
                match skipSpace r3 with
                | [] => .error "unexpected EOF"
                | c3 :: r4 =>
                  if c3 = ',' then
                    match parseMembers fuel depth r4 with
                    | .error e => .error e
                    | .ok (ms, r5) => .ok ((String.mk key, v) :: ms, r5)
                  else if c3 = '\x7d' then .ok ([(String.mk key, v)], r4)
                  else .error "invalid character after object key:value pair"
            else .error "invalid character after object key"
      else .error "invalid character looking for beginning of object key string"
/-- The elements of an array after `[` or `,`, up to and including the closing
bracket. -/
def parseElements : Nat → Nat → List Char → Parse (List Json)
  | 0, _, _ => .error "input too long"
  | fuel + 1, depth, s =>
    match parseValue fuel depth s with
    | .error e => .error e
    | .ok (v, r1) =>
      match skipSpace r1 with
      | [] => .error "unexpected EOF"
      | c :: r2 =>
        if c = ',' then
          match parseElements fuel depth r2 with
          | .error e => .error e
          | .ok (es, r3) => .ok (v :: es, r3)
        else if c = ']' then .ok ([v], r2)
        else .error "invalid character after array element"
end

/-- `Decoder.readValue`: the first JSON value of the body. An empty body is the
error `EOF`. The scanner stops at the end of the first value: what follows it is
not looked at (the stream decoder, unlike `json.Unmarshal`, does not complain
about it). The recursion bound given to `parseValue` is never reached
(`readValue_fuel`). -/
def readValue (body : List Char) : Except String Json :=
  match skipSpace body with
  | [] => .error "EOF"
  | _ :: _ =>
    match parseValue (2 * body.length + 1) 0 body with
    | .error e => .error e
    | .ok (v, _) => .ok v

/-- The name `UnmarshalTypeError.Value` gives to a JSON value. -/
def Json.kindName : Json → String
  | .null => "null"
  | .bool _ => "bool"
  | .num _ => "number"
  | .str _ => "string"
  | .arr _ => "array"
  | .obj _ => "object"

/-- `foldRune` on the characters that can fold to an ASCII letter: ASCII lower
case, U+017F (long s) and U+212A (Kelvin sign). No other character folds to
one, so comparing folded names decides a match with an ASCII field name. -/
def foldRune (c : Char) : Char :=
  if c.isLower then c.toUpper
  else if c.toNat = 0x17f then 'S'
  else if c.toNat = 0x212a then 'K'
  else c

/-- `foldName`: a member name with every character folded. -/
def foldName (s : String) : List Char := s.data.map foldRune

/-- The field a member name selects: a field whose tag name is the member name,
or else the first field whose folded tag name is the folded member name. -/
def lookupField (fields : List String) (key : String) : Option String :=
  match fields.find? (fun f => decide (f = key)) with
  | some f => some f
  | none => fields.find? (fun f => decide (foldName f = foldName key))

/-- `saveError`: only the first error of a decode is kept. -/
def saveError (saved : Option String) (e : String) : Option String :=
  match saved with
  | some e0 => some e0
  | none => some e

/-- The message of an `UnmarshalTypeError` for a struct field. -/
def typeError (v : Json) (field type : String) : String :=
  "json: cannot unmarshal " ++ v.kindName ++ " into Go struct field " ++ field
    ++ " of type " ++ type

/-- The Go type of `OpenAIRequest.Messages` elements, as printed in errors. -/
def messageType : String :=
  "struct \x7b Role string \"json:\\\"role\\\"\"; Content string \"json:\\\"content\\\"\" \x7d"

/-- Store one object member into a message: `role` and `content` take a string,
`null` leaves the field as it is, any other value is a saved type error, a
member that names no field is skipped. -/
def decodeMessageMember (st : Message × Option String) (kv : String × Json) :
    Message × Option String :=
  match lookupField ["role", "content"] kv.1 with
  | none => st
  | some f =>
    match kv.2 with
    | .null => st
    | .str s =>
      if f = "role" then ({ st.1 with Role := s }, st.2) else ({ st.1 with Content := s }, st.2)
    | v => (st.1, saveError st.2 (typeError v ("OpenAIRequest.messages." ++ f) "string"))

/-- Store an array element into the slice element `old`: an object is stored
member by member, `null` leaves the element as it is, any other value is a saved
type error. -/
def decodeMessage (old : Message) (err : Option String) (v : Json) : Message × Option String :=
  match v with
  | .obj ms => ms.foldl decodeMessageMember (old, err)
  | .null => (old, err)
  | v => (old, saveError err (typeError v "OpenAIRequest.messages" messageType))

/-- The loop of `decodeState.array` over a slice: element `i` of the array is
stored into element `i` of the backing array (a zero element where the backing
array ends). Returns the decoded elements, the unused rest of the backing array,
and the saved error. -/
def decodeElems : List Json → List Message → Option String →
    List Message × List Message × Option String
  | [], backing, err => ([], backing, err)
  | e :: es, backing, err =>
    let m := decodeMessage (backing.headD ⟨"", ""⟩) err e
    let r := decodeElems es backing.tail m.2
    (m.1 :: r.1, r.2.1, r.2.2)

/-- The state of a decode into `openAIreq`: the struct, the elements of the
backing array of `Messages` behind its length, and the saved error. -/
structure DecodeState where
  req : OpenAIRequest
  spare : List Message
  err : Option String

/-- Store one top-level object member into the struct (`decodeState.object`):
`model` takes a string, `stream` a bool, `messages` an array or `null` (the nil
slice; an empty array gives a fresh empty slice); `null` leaves a string or bool
field as it is; any other value is a saved type error and decoding goes on; a
member that names no field is skipped. -/
def decodeMember (st : DecodeState) (kv : String × Json) : DecodeState :=
  match lookupField ["model", "messages", "stream"] kv.1 with
  | none => st
  | some f =>
    if f = "model" then
      match kv.2 with
      | .null => st
      | .str s => { st with req := { st.req with Model := s } }
      | v => { st with err := saveError st.err (typeError v "OpenAIRequest.model" "string") }
    else if f = "stream" then
      match kv.2 with
      | .null => st
      | .bool b => { st with req := { st.req with Stream := b } }
      | v => { st with err := saveError st.err (typeError v "OpenAIRequest.stream" "bool") }
    else
      match kv.2 with
      | .null => { st with req := { st.req with Messages := none }, spare := [] }
      | .arr [] => { st with req := { st.req with Messages := some [] }, spare := [] }
      | .arr es =>
        let r := decodeElems es (st.req.Messages.getD [] ++ st.spare) st.err
        { req := { st.req with Messages := some r.1 }, spare := r.2.1, err := r.2.2 }
      | v =>
        let e := typeError v "OpenAIRequest.messages" ("[]" ++ messageType)
        { st with err := saveError st.err e }

/-- Store a scanned value into `openAIreq` (`decodeState.value` on a struct):
an object is stored member by member, `null` changes nothing, any other value is
a type error. -/
def decodeValue (v : Json) (req : OpenAIRequest) : DecodeState :=
  match v with
  | .obj ms => ms.foldl decodeMember ⟨req, [], none⟩
  | .null => ⟨req, [], none⟩
  | v => ⟨req, [], some ("json: cannot unmarshal " ++ v.kindName
            ++ " into Go value of type main.OpenAIRequest")⟩

/-- The call `c.ShouldBind(&openAIreq)` on a request with a JSON content type
and the fresh `openAIreq`: gin decodes the body with `json.NewDecoder` (the
struct has no `binding` tags, so validation adds no error). Returns the struct
as the call leaves it and the error it returns. -/
def ShouldBind (body : String) : OpenAIRequest × Option String :=
  match readValue body.data with
  | .error e => (OpenAIRequest.zero, some e)
  | .ok v => ((decodeValue v OpenAIRequest.zero).req, (decodeValue v OpenAIRequest.zero).err)

/-! ## gin: the response writer and the render calls -/

/-- An opaque byte sequence. -/
abbrev Bytes := List UInt8

/-- The bytes of a text (`[]byte(s)`). -/
def utf8 (s : String) : Bytes := s.data.flatMap String.utf8EncodeChar

/-- The `responseWriter` of gin on top of the `http.ResponseWriter` of the
server. `status` is the pending status code (gin starts at 200), `header` the
live header map `w.Header()`, `wire` the status line and the header map as the
server sent them (`none` until the header is written), `body` the body bytes
sent. -/
structure ResponseWriter where
  status : Nat
  header : Header
  wire : Option (Nat × Header)
  body : Bytes
deriving DecidableEq

/-- The writer a handler starts with. -/
def ResponseWriter.fresh : ResponseWriter := ⟨200, [], none, []⟩

/-- `Written()` of gin's writer. -/
def ResponseWriter.Written (w : ResponseWriter) : Bool := w.wire.isSome

/-- `bodyAllowedForStatus` of gin and of `net/http`. -/
def bodyAllowedForStatus (status : Nat) : Bool :=
  if 100 ≤ status ∧ status ≤ 199 then false
  else if status = 204 then false
  else if status = 304 then false
  else true

/-- `suppressedHeaders` of `net/http`: the header names the server leaves out of
the response it sends with the given status, whatever the handler has set:
three names on a 304, two on any other status that allows no body. -/
def suppressedHeaders (status : Nat) : List String :=
  if status = 304 then ["Content-Type", "Content-Length", "Transfer-Encoding"]
  else if bodyAllowedForStatus status then []
  else ["Content-Length", "Transfer-Encoding"]

/-- The header map as the server sends it with the given status: the map the
handler filled, without the suppressed names. -/
def sentHeader (status : Nat) (h : Header) : Header :=
  (suppressedHeaders status).foldl GoMap.del h

/-- `c.Status(code)`, gin's `WriteHeader`: sets the pending status, unless the
code is not positive or the header is already written. -/
def ResponseWriter.Status (w : ResponseWriter) (code : Nat) : ResponseWriter :=
  if code > 0 ∧ w.status ≠ code then
    if w.Written then w else { w with status := code }
  else w

/-- `WriteHeaderNow`: if nothing is written yet, send the status line with the
pending status and the header map as it is now, less the names the server
suppresses for that status. `net/http` panics on a status
code outside 100..999; the panic is the `error` result. (For an informational
code other than 101 recent versions of `net/http` send an interim response and
keep the header open; `http.Client` hands no such code to the handler, and no
statement below is about one.) -/
def ResponseWriter.WriteHeaderNow (w : ResponseWriter) : Except String ResponseWriter :=
  if w.Written then .ok w
  else if w.status < 100 ∨ w.status > 999 then .error "invalid WriteHeader code"
  else .ok { w with wire := some (w.status, sentHeader w.status w.header) }

/-- Gin's `Write`: send the header if it is not sent yet, then the data.
`net/http` drops the data when the status sent does not allow a body. -/
def ResponseWriter.Write (w : ResponseWriter) (data : Bytes) : Except String ResponseWriter :=
  match w.WriteHeaderNow with
  | .error e => .error e
  | .ok w1 =>
    match w1.wire with
    | some (st, _) =>
      if bodyAllowedForStatus st then .ok { w1 with body := w1.body ++ data } else .ok w1
    | none => .ok w1

/-- `writeContentType` of gin's render package: the content type is set only
when the header map holds no `Content-Type` value yet. -/
def writeContentType (w : ResponseWriter) (value : List String) : ResponseWriter :=
  if ((GoMap.get? w.header "Content-Type").getD []).length = 0 then
    { w with header := GoMap.set w.header "Content-Type" value }
  else w

/-- `c.Render` for a render with the given content type and bytes: set the
status; for a status that allows no body write the content type and the header
only; otherwise write the content type and the bytes. -/
def ResponseWriter.Render (w : ResponseWriter) (code : Nat) (contentType : List String)
    (data : Bytes) : Except String ResponseWriter :=
  let w1 := w.Status code
  if bodyAllowedForStatus code then (writeContentType w1 contentType).Write data
  else (writeContentType w1 contentType).WriteHeaderNow

/-- `c.JSON(code, obj)` for a `gin.H`. -/
def ResponseWriter.JSON (w : ResponseWriter) (code : Nat) (obj : H) : Except String ResponseWriter :=
  w.Render code ["application/json; charset=utf-8"] (utf8 (marshalH obj))

/-- `c.Data(code, contentType, data)`. -/
def ResponseWriter.Data (w : ResponseWriter) (code : Nat) (contentType : String) (data : Bytes) :
    Except String ResponseWriter :=
  w.Render code [contentType] data

/-- `c.Header(key, value)`: `Set` on the live header map, `Del` for an empty
value. -/
def ResponseWriter.Header (w : ResponseWriter) (key value : String) : ResponseWriter :=
  if value = "" then { w with header := Header.Del w.header key }
  else { w with header := Header.Set w.header key value }

/-! ## The handler of `POST /v1/chat/completions` -/

/-- The request handed to `http.DefaultClient.Do`. -/
structure Request where
  Method : String
  URL : String
  Header : ModelReplace.Header
  Body : String
deriving DecidableEq

/-- The `*http.Response` as the handler uses it; `Body` is the outcome of
`io.ReadAll(resp.Body)`. -/
structure Response where
  StatusCode : Nat
  Header : ModelReplace.Header
  Body : Except String Bytes

/-- What the handler depends on besides the inbound request: the two globals,
whether `url.Parse` accepts a URL (`http.NewRequest` fails when it does not),
and the outcome of `http.DefaultClient.Do` for a request. -/
structure Env where
  MODEL_TABLE : GoMap String
  API_BASE : String
  parseURL : String → Bool
  Do : Request → Except String Response

/-- `http.NewRequest(method, url, body)`: a request with an empty header. -/
def NewRequest (env : Env) (method url body : String) : Except String Request :=
  if env.parseURL url then .ok ⟨method, url, [], body⟩ else .error "parse error"

/-- What a run of the handler leaves: the response writer (or the panic that
ended the run) and the requests given to `http.DefaultClient.Do`, in order. -/
structure Outcome where
  result : Except String ResponseWriter
  calls : List Request
deriving DecidableEq

/-- Lines 194-199: `c.Header(key, value)` for every key and every value of
`resp.Header`. -/
def relayHeaders (src : Header) (w : ResponseWriter) : ResponseWriter :=
  src.foldl (fun w kv => kv.2.foldl (fun w value => w.Header kv.1 value) w) w

/-- Lines 155-202 of `main.go`: the handler from the model rewrite on, run on
the struct `openAIreq` and the writer `w` that the bind step left. -/
def forward (env : Env) (inHeader : Header) (openAIreq : OpenAIRequest) (w : ResponseWriter) :
    Outcome :=
  let openAIreq := replaceModel env.MODEL_TABLE openAIreq
  match jsonMarshal openAIreq with
  | .error _ => ⟨w.JSON 500 [("error", .str "Failed to marshal modified data")], []⟩
  | .ok modifiedData =>
    match NewRequest env "POST" (env.API_BASE ++ "/v1/chat/completions") modifiedData with
    | .error _ => ⟨w.JSON 500 [("error", .str "Failed to create request")], []⟩
    | .ok req0 =>
      let req := { req0 with Header := copyHeaders inHeader req0.Header }
      match env.Do req with
      | .error _ => ⟨w.JSON 500 [("error", .str "Failed to forward request")], [req]⟩
      | .ok resp =>
        match resp.Body with
        | .error _ => ⟨w.JSON 500 [("error", .str "Failed to read response body")], [req]⟩
        | .ok respBody =>
          ⟨(relayHeaders resp.Header w).Data resp.StatusCode "application/json" respBody, [req]⟩

/-- The handler of `POST /v1/chat/completions` (lines 148-203): bind the body;
on a bind error render the 400 error object and go on (there is no `return`);
then the rest of the handler. -/
def chatCompletions (env : Env) (inHeader : Header) (body : String) : Outcome :=
  let bound := ShouldBind body
  match bound.2 with
  | some err =>
    match ResponseWriter.fresh.JSON 400 [("error", .str err), ("code", .int 400)] with
    | .error e => ⟨.error e, []⟩
    | .ok w => forward env inHeader bound.1 w
  | none => forward env inHeader bound.1 ResponseWriter.fresh

/-- An upstream that answers every request with the given response. -/
def answering (table : GoMap String) (resp : Response) : Env :=
  ⟨table, "https://api.openai.com", fun _ => true, fun _ => .ok resp⟩

/-- An upstream that cannot be reached. -/
def unreachable (table : GoMap String) : Env :=
  ⟨table, "https://api.openai.com", fun _ => true, fun _ => .error "connection refused"⟩

/-- The request body of scenario 1 of the specification. -/
def scenarioBody : String :=
  "\x7b\"model\":\"gpt-3.5\",\"messages\":[\x7b\"role\":\"user\",\"content\":\"hi\"\x7d],\"stream\":false\x7d"

/-- The table of scenario 1, with a second entry whose key is the first
entry's value. -/
def scenarioTable : GoMap String :=
  [("gpt-3.5", "gpt-3.5-turbo-16k"), ("gpt-3.5-turbo-16k", "gpt-4")]

/-- The struct `scenarioBody` decodes to. -/
def scenarioRequest : OpenAIRequest := ⟨"gpt-3.5", some [⟨"user", "hi"⟩], false⟩

/-- The response of scenario 5: status 429 with a JSON error body. -/
def rateLimited : Response :=
  ⟨429, [("Content-Type", ["application/json"]), ("Retry-After", ["1"])],
    .ok (utf8 "\x7b\"error\":\"rate limited\"\x7d")⟩

/-- An environment whose `API_BASE` is `:`, for which `http.NewRequest` fails
(`missing protocol scheme`). -/
def badBase : Env := ⟨[], ":", fun _ => false, fun _ => .error "unused"⟩

/-! ## Definitions used in the statements -/

/-- The URL the handler posts to. -/
def upstreamURL (env : Env) : String := env.API_BASE ++ "/v1/chat/completions"

/-- A body whose model occurs in `scenarioTable` only as a mapping target. -/
def targetOnlyBody : String := "\x7b\"model\":\"gpt-4\"\x7d"

/-- An inbound header set with a repeated name. -/
def inboundHeaders : Header :=
  [("Authorization", ["Bearer k"]), ("Accept", ["application/json", "text/plain"]),
    ("X-Trace", ["a", "b", "c"])]

/-- What the `c.Header` calls for the values of one name leave for that name:
the last value alone, or nothing when the last value is empty. -/
def lastValue (cur : Option (List String)) (vs : List String) : Option (List String) :=
  vs.foldl (fun _ v => if v = "" then none else some [v]) cur

/-- The header map after `writeContentType`. -/
def withContentType (h : Header) (value : List String) : Header :=
  if ((GoMap.get? h "Content-Type").getD []).length = 0 then GoMap.set h "Content-Type" value
  else h

/-- The request the handler builds from the struct the bind step left. -/
def outboundFor (env : Env) (inHeader : Header) (req : OpenAIRequest) : Request :=
  ⟨"POST", upstreamURL env, copyHeaders inHeader [],
    String.mk (marshalText (replaceModel env.MODEL_TABLE req))⟩

/-- The request the handler builds for an inbound body. -/
def outbound (env : Env) (inHeader : Header) (body : String) : Request :=
  outboundFor env inHeader (ShouldBind body).1

/-- The content type gin declares for a JSON render. -/
def jsonContentType : List String := ["application/json; charset=utf-8"]

/-- A body that is syntactically valid JSON and fails to decode: `stream` holds
a string. -/
def mistypedBody : String := "\x7b\"model\":\"gpt-4\",\"stream\":\"yes\"\x7d"

/-- An upstream that answers 200 with a small JSON body. -/
def answeringOk : Env :=
  answering [] ⟨200, [("Content-Type", ["application/json"])], .ok (utf8 "\x7b\"ok\":true\x7d")⟩

/-- The scanned value of an encoded message. -/
def Message.toJson (m : Message) : Json :=
  .obj [("role", .str m.Role), ("content", .str m.Content)]

/-- The scanned value of an encoded `Messages` slice. -/
def messagesJson : Option (List Message) → Json
  | none => .null
  | some l => .arr (l.map Message.toJson)

/-- The scanned value of an encoded request. -/
def OpenAIRequest.toJson (r : OpenAIRequest) : Json :=
  .obj [("model", .str r.Model), ("messages", messagesJson r.Messages), ("stream", .bool r.Stream)]

/-- The message the parsers give when their recursion bound is reached. -/
def tooLong : String := "input too long"

/-! ## The model on concrete inputs -/

/-- The body `\x7b` is a syntax error and leaves the struct untouched. -/
theorem check_bind_open_brace :
    ShouldBind "\x7b" = (OpenAIRequest.zero, some "unexpected EOF") := by decide

/-- The empty body is the error `EOF`. -/
theorem check_bind_empty : ShouldBind "" = (OpenAIRequest.zero, some "EOF") := by decide

/-- The body `null` decodes without error and changes nothing. -/
theorem check_bind_null : ShouldBind "null" = (OpenAIRequest.zero, none) := by decide

/-- Text after the first value is not looked at, also after a scalar. -/
theorem check_bind_trailing :
    ShouldBind "nullx" = (OpenAIRequest.zero, none)
      ∧ ShouldBind "12x"
        = (OpenAIRequest.zero,
            some "json: cannot unmarshal number into Go value of type main.OpenAIRequest") := by
  decide

/-- The body of scenario 1 decodes to its request. -/
theorem check_bind_scenario : ShouldBind scenarioBody = (scenarioRequest, none) := by decide

/-- White space, a member name in another case, escapes with a surrogate pair,
an unknown member with nested values, and text after the value. -/
theorem check_bind_liberal :
    ShouldBind " \x7b \"Model\" : \"a\\u00e9\\n\\ud83d\\ude00\" , \"x\" : [1, -2.5e3, true, null, \x7b\x7d] \x7d trailing"
      = (⟨"aé\n😀", none, false⟩, none) := by decide

/-- The encoder escapes `<`, `>` and the newline. -/
theorem check_marshal_escapes :
    jsonMarshal ⟨"gpt-4", some [⟨"user", "hi <b>"⟩, ⟨"a", "x\ny"⟩], false⟩
      = .ok "\x7b\"model\":\"gpt-4\",\"messages\":[\x7b\"role\":\"user\",\"content\":\"hi \\u003cb\\u003e\"\x7d,\x7b\"role\":\"a\",\"content\":\"x\\ny\"\x7d],\"stream\":false\x7d" := by
  decide

/-- The encoding of the zero-valued request. -/
theorem check_marshal_zero :
    jsonMarshal OpenAIRequest.zero
      = .ok "\x7b\"model\":\"\",\"messages\":null,\"stream\":false\x7d" := by decide

/-- The encoding of the 400 error object: keys in sorted order. -/
theorem check_marshalH :
    marshalH [("error", .str "bad"), ("code", .int 400)]
      = "\x7b\"code\":400,\"error\":\"bad\"\x7d" := by decide

/-- Canonical header names. -/
theorem check_canonical :
    CanonicalMIMEHeaderKey "content-type" = "Content-Type"
      ∧ CanonicalMIMEHeaderKey "x forwarded" = "x forwarded" := by decide

/-- Scenarios 1 and 5 together: the model is replaced in the request sent
upstream, the inbound header is copied, status 429 and its body are relayed. -/
theorem check_scenario :
    chatCompletions (answering scenarioTable rateLimited) [("Authorization", ["Bearer k"])]
        scenarioBody
      = ⟨.ok ⟨429, [("Content-Type", ["application/json"]), ("Retry-After", ["1"])],
            some (429, [("Content-Type", ["application/json"]), ("Retry-After", ["1"])]),
            utf8 "\x7b\"error\":\"rate limited\"\x7d"⟩,
          [⟨"POST", "https://api.openai.com/v1/chat/completions",
            [("Authorization", ["Bearer k"])],
            "\x7b\"model\":\"gpt-3.5-turbo-16k\",\"messages\":[\x7b\"role\":\"user\",\"content\":\"hi\"\x7d],\"stream\":false\x7d"⟩]⟩ := by
  decide

/-! ## The model rewrite (C1, C2) -/

/-- The 400 error object is always rendered: the writer after it. -/
theorem fresh_JSON_400 (obj : H) :
    ResponseWriter.fresh.JSON 400 obj
      = .ok ⟨400, [("Content-Type", ["application/json; charset=utf-8"])],
          some (400, [("Content-Type", ["application/json; charset=utf-8"])]),
          utf8 (marshalH obj)⟩ := by
  rfl

/-- The requests `forward` hands to the client: none when the outbound request
cannot be built, otherwise the one POST holding the serialized rewritten struct
and the copied headers. -/
theorem forward_calls (env : Env) (inHeader : Header) (req : OpenAIRequest) (w : ResponseWriter) :
    (forward env inHeader req w).calls
      = if env.parseURL (upstreamURL env) = true then
          [⟨"POST", upstreamURL env, copyHeaders inHeader [],
            String.mk (marshalText (replaceModel env.MODEL_TABLE req))⟩]
        else [] := by
  unfold forward jsonMarshal NewRequest upstreamURL
  by_cases hurl : env.parseURL (env.API_BASE ++ "/v1/chat/completions") = true
  · simp only [hurl, if_true]
    cases hdo : env.Do ⟨"POST", env.API_BASE ++ "/v1/chat/completions", copyHeaders inHeader [],
        String.mk (marshalText (replaceModel env.MODEL_TABLE req))⟩ with
    | error e => simp [hdo]
    | ok resp =>
      cases hb : resp.Body with
      | error e => simp [hdo, hb]
      | ok b => simp [hdo, hb]
  · simp [hurl]

/-- The requests the handler hands to the client, for any body. -/
theorem chatCompletions_calls (env : Env) (inHeader : Header) (body : String) :
    (chatCompletions env inHeader body).calls
      = if env.parseURL (upstreamURL env) = true then
          [⟨"POST", upstreamURL env, copyHeaders inHeader [],
            String.mk (marshalText (replaceModel env.MODEL_TABLE (ShouldBind body).1))⟩]
        else [] := by
  unfold chatCompletions
  cases hb : (ShouldBind body).2 with
  | none => simp only [hb]; exact forward_calls env inHeader _ _
  | some err => simp only [hb, fresh_JSON_400]; exact forward_calls env inHeader _ _

/-- C1: for every table and every decoded request whose model is a key of the
table, the struct the handler serializes has the table's value for that key as
its model (looked up once, whether or not that value is itself a key) and the
messages and stream flag of the decoded request; the request the handler hands
to the client for a body that decodes to it, when it hands one, carries exactly
the serialization of that struct. -/
theorem model_replaced_when_key (env : Env) (inHeader : Header) (body : String)
    (req : OpenAIRequest) (target : String)
    (hkey : env.MODEL_TABLE.get? req.Model = some target) :
    replaceModel env.MODEL_TABLE req = ⟨target, req.Messages, req.Stream⟩
      ∧ ((ShouldBind body).1 = req →
          (chatCompletions env inHeader body).calls
            = if env.parseURL (upstreamURL env) = true then
                [⟨"POST", upstreamURL env, copyHeaders inHeader [],
                  String.mk (marshalText ⟨target, req.Messages, req.Stream⟩)⟩]
              else []) := by
  have h1 : replaceModel env.MODEL_TABLE req = ⟨target, req.Messages, req.Stream⟩ := by
    simp [replaceModel, tableIndex, hkey]
  refine ⟨h1, fun hreq => ?_⟩
  rw [chatCompletions_calls, hreq, h1]

/-- C1 (witness): scenario 1, with a table in which the mapped value is itself
a key. -/
theorem model_replaced_when_key_witness :
    GoMap.get? (answering scenarioTable rateLimited).MODEL_TABLE scenarioRequest.Model
        = some "gpt-3.5-turbo-16k"
      ∧ GoMap.get? scenarioTable "gpt-3.5-turbo-16k" = some "gpt-4"
      ∧ (ShouldBind scenarioBody).1 = scenarioRequest
      ∧ replaceModel (answering scenarioTable rateLimited).MODEL_TABLE scenarioRequest
          = ⟨"gpt-3.5-turbo-16k", scenarioRequest.Messages, scenarioRequest.Stream⟩
      ∧ ((ShouldBind scenarioBody).1 = scenarioRequest →
          (chatCompletions (answering scenarioTable rateLimited) [] scenarioBody).calls
            = if (answering scenarioTable rateLimited).parseURL
                  (upstreamURL (answering scenarioTable rateLimited)) = true then
                [⟨"POST", upstreamURL (answering scenarioTable rateLimited), copyHeaders [] [],
                  String.mk (marshalText
                    ⟨"gpt-3.5-turbo-16k", scenarioRequest.Messages, scenarioRequest.Stream⟩)⟩]
              else []) :=
  ⟨by decide, by decide, by decide,
    model_replaced_when_key (answering scenarioTable rateLimited) [] scenarioBody scenarioRequest
      "gpt-3.5-turbo-16k" (by decide)⟩

/-- C2: for every table and every decoded request whose model is not a key of
the table, the struct the handler serializes is the decoded request, field for
field; the request the handler hands to the client for a body that decodes to
it, when it hands one, carries exactly the serialization of the decoded
request. -/
theorem model_kept_when_not_key (env : Env) (inHeader : Header) (body : String)
    (req : OpenAIRequest) (hkey : env.MODEL_TABLE.get? req.Model = none) :
    replaceModel env.MODEL_TABLE req = req
      ∧ ((ShouldBind body).1 = req →
          (chatCompletions env inHeader body).calls
            = if env.parseURL (upstreamURL env) = true then
                [⟨"POST", upstreamURL env, copyHeaders inHeader [],
                  String.mk (marshalText req)⟩]
              else []) := by
  have h1 : replaceModel env.MODEL_TABLE req = req := by
    simp [replaceModel, hkey]
  refine ⟨h1, fun hreq => ?_⟩
  rw [chatCompletions_calls, hreq, h1]

/-- C2 (witness): a model that is a mapping target and not a key. -/
theorem model_kept_when_not_key_witness :
    GoMap.get? (answering scenarioTable rateLimited).MODEL_TABLE
        (⟨"gpt-4", none, false⟩ : OpenAIRequest).Model = none
      ∧ GoMap.get? scenarioTable "GPT-3.5" = none
      ∧ GoMap.get? scenarioTable "gpt-3" = none
      ∧ (ShouldBind targetOnlyBody).1 = ⟨"gpt-4", none, false⟩
      ∧ replaceModel (answering scenarioTable rateLimited).MODEL_TABLE ⟨"gpt-4", none, false⟩
          = ⟨"gpt-4", none, false⟩
      ∧ ((ShouldBind targetOnlyBody).1 = ⟨"gpt-4", none, false⟩ →
          (chatCompletions (answering scenarioTable rateLimited) [] targetOnlyBody).calls
            = if (answering scenarioTable rateLimited).parseURL
                  (upstreamURL (answering scenarioTable rateLimited)) = true then
                [⟨"POST", upstreamURL (answering scenarioTable rateLimited), copyHeaders [] [],
                  String.mk (marshalText ⟨"gpt-4", none, false⟩)⟩]
              else []) :=
  ⟨by decide, by decide, by decide, by decide,
    model_kept_when_not_key (answering scenarioTable rateLimited) [] targetOnlyBody
      ⟨"gpt-4", none, false⟩ (by decide)⟩

/-! ## Header copy (C3) -/

theorem GoMap.get?_append_of_not_mem {V : Type} (d e : GoMap V) (k : String)
    (h : k ∉ GoMap.keys d) : GoMap.get? (d ++ e) k = GoMap.get? e k := by
  induction d with
  | nil => rfl
  | cons x d ih =>
    obtain ⟨k', v⟩ := x
    simp only [GoMap.keys, List.map_cons, List.mem_cons, not_or] at h
    have hne : ¬ k' = k := fun hk => h.1 hk.symm
    simp only [List.cons_append, GoMap.get?, hne, if_false]
    exact ih h.2

theorem GoMap.set_append_of_not_mem {V : Type} (d e : GoMap V) (k : String) (v : V)
    (h : k ∉ GoMap.keys d) : GoMap.set (d ++ e) k v = d ++ GoMap.set e k v := by
  induction d with
  | nil => rfl
  | cons x d ih =>
    obtain ⟨k', v'⟩ := x
    simp only [GoMap.keys, List.map_cons, List.mem_cons, not_or] at h
    have hne : ¬ k' = k := fun hk => h.1 hk.symm
    simp only [List.cons_append, GoMap.set, hne, if_false]
    exact congrArg _ (ih h.2)

/-- Adding the values of one canonical key that `dest` does not hold yet, after
the values `acc` already added for it. -/
theorem add_values_append (dest : Header) (k : String) (acc vs : List String)
    (hcanon : CanonicalMIMEHeaderKey k = k) (hk : k ∉ GoMap.keys dest) :
    vs.foldl (fun d value => Header.Add d k value) (dest ++ [(k, acc)])
      = dest ++ [(k, acc ++ vs)] := by
  induction vs generalizing acc with
  | nil => simp
  | cons v vs ih =>
    have hstep : Header.Add (dest ++ [(k, acc)]) k v = dest ++ [(k, acc ++ [v])] := by
      simp only [Header.Add, hcanon]
      rw [GoMap.get?_append_of_not_mem _ _ _ hk, GoMap.set_append_of_not_mem _ _ _ _ hk]
      simp [GoMap.get?, GoMap.set]
    rw [List.foldl_cons, hstep, ih]
    simp

/-- Adding the values of one canonical key that `dest` does not hold, when there
is at least one value. -/
theorem add_values_new (dest : Header) (k : String) (vs : List String)
    (hcanon : CanonicalMIMEHeaderKey k = k) (hk : k ∉ GoMap.keys dest) (hne : vs ≠ []) :
    vs.foldl (fun d value => Header.Add d k value) dest = dest ++ [(k, vs)] := by
  cases vs with
  | nil => exact absurd rfl hne
  | cons v vs =>
    have hstep : Header.Add dest k v = dest ++ [(k, [v])] := by
      simp only [Header.Add, hcanon]
      have h0 := GoMap.get?_append_of_not_mem dest [] k hk
      have h1 := GoMap.set_append_of_not_mem dest [] k [v] hk
      simp only [List.append_nil] at h0 h1
      rw [h0]
      simp only [GoMap.get?, Option.getD_none, List.nil_append]
      rw [h1]
      simp [GoMap.set]
    rw [List.foldl_cons, hstep, add_values_append dest k [v] vs hcanon hk]
    simp

/-- `copyHeaders` onto a header set that shares no key with the source. -/
theorem copyHeaders_append (src dest : Header)
    (hnodup : (GoMap.keys src).Nodup)
    (hcanon : ∀ k ∈ GoMap.keys src, CanonicalMIMEHeaderKey k = k)
    (hvals : ∀ kv ∈ src, kv.2 ≠ [])
    (hdisj : ∀ k ∈ GoMap.keys src, k ∉ GoMap.keys dest) :
    copyHeaders src dest = dest ++ src := by
  induction src generalizing dest with
  | nil => simp [copyHeaders]
  | cons x src ih =>
    obtain ⟨k, vs⟩ := x
    simp only [GoMap.keys, List.map_cons, List.nodup_cons] at hnodup
    have hk : k ∉ GoMap.keys dest := hdisj k (by simp [GoMap.keys])
    have hc : CanonicalMIMEHeaderKey k = k := hcanon k (by simp [GoMap.keys])
    have hv : vs ≠ [] := hvals (k, vs) (by simp)
    have hfold := add_values_new dest k vs hc hk hv
    unfold copyHeaders
    rw [List.foldl_cons]
    simp only [hfold]
    have := ih (dest ++ [(k, vs)]) hnodup.2
      (fun k' hk' => hcanon k' (by simp only [GoMap.keys, List.map_cons, List.mem_cons]; exact Or.inr hk'))
      (fun kv hkv => hvals kv (by simp [hkv]))
      (by
        intro k' hk' hmem
        simp only [GoMap.keys, List.map_append, List.map_cons, List.map_nil, List.mem_append,
          List.mem_singleton] at hmem
        rcases hmem with hmem | hmem
        · exact hdisj k' (by simp only [GoMap.keys, List.map_cons, List.mem_cons]; exact Or.inr hk') hmem
        · exact hnodup.1 (hmem ▸ hk'))
    unfold copyHeaders at this
    rw [this]
    simp

/-- C3: for every inbound header set (a map: no name twice; names in the
canonical form the server gives them; at least one value per name),
`copyHeaders` onto the empty header set of the new upstream request yields a
header set in which every name has exactly the values it has in the source, in
the same order, and no other name is present; it is the header set of the
request the handler hands to the client. -/
theorem copyHeaders_preserves_values (src : Header)
    (hnodup : (GoMap.keys src).Nodup)
    (hcanon : ∀ k ∈ GoMap.keys src, CanonicalMIMEHeaderKey k = k)
    (hvals : ∀ kv ∈ src, kv.2 ≠ []) (env : Env) (body : String) (k : String) :
    GoMap.get? (copyHeaders src []) k = GoMap.get? src k
      ∧ (GoMap.keys (copyHeaders src [])).Nodup
      ∧ ∀ r ∈ (chatCompletions env src body).calls,
          GoMap.get? r.Header k = GoMap.get? src k := by
  have h := copyHeaders_append src [] hnodup hcanon hvals (by simp [GoMap.keys])
  simp only [List.nil_append] at h
  refine ⟨by rw [h], by rw [h]; exact hnodup, ?_⟩
  intro r hr
  rw [chatCompletions_calls] at hr
  split at hr
  · simp only [List.mem_singleton] at hr
    rw [hr, h]
  · simp at hr

/-- C3 (witness): a header set with names of one, two and three values. -/
theorem copyHeaders_preserves_values_witness :
    (GoMap.keys inboundHeaders).Nodup
      ∧ (∀ k ∈ GoMap.keys inboundHeaders, CanonicalMIMEHeaderKey k = k)
      ∧ (∀ kv ∈ inboundHeaders, kv.2 ≠ [])
      ∧ GoMap.get? (copyHeaders inboundHeaders []) "X-Trace" = GoMap.get? inboundHeaders "X-Trace"
      ∧ (GoMap.keys (copyHeaders inboundHeaders [])).Nodup
      ∧ ∀ r ∈ (chatCompletions (answering scenarioTable rateLimited) inboundHeaders
            scenarioBody).calls,
          GoMap.get? r.Header "X-Trace" = GoMap.get? inboundHeaders "X-Trace" :=
  ⟨by decide, by decide, by decide,
    copyHeaders_preserves_values inboundHeaders (by decide) (by decide) (by decide)
      (answering scenarioTable rateLimited) scenarioBody "X-Trace"⟩

/-! ## The response writer: lemmas -/

theorem GoMap.get?_set_self {V : Type} (m : GoMap V) (k : String) (v : V) :
    GoMap.get? (GoMap.set m k v) k = some v := by
  induction m with
  | nil => simp [GoMap.set, GoMap.get?]
  | cons x m ih =>
    obtain ⟨k', v'⟩ := x
    by_cases h : k' = k
    · simp [GoMap.set, GoMap.get?, h]
    · simp [GoMap.set, GoMap.get?, h, ih]

theorem GoMap.get?_set_ne {V : Type} (m : GoMap V) (k k0 : String) (v : V) (hne : k ≠ k0) :
    GoMap.get? (GoMap.set m k v) k0 = GoMap.get? m k0 := by
  induction m with
  | nil => simp [GoMap.set, GoMap.get?, hne]
  | cons x m ih =>
    obtain ⟨k', v'⟩ := x
    by_cases h : k' = k
    · subst h
      simp [GoMap.set, GoMap.get?, hne]
    · by_cases h0 : k' = k0
      · subst h0
        simp [GoMap.set, GoMap.get?, h]
      · simp [GoMap.set, GoMap.get?, h, h0, ih]

theorem GoMap.get?_del_self {V : Type} (m : GoMap V) (k : String) :
    GoMap.get? (GoMap.del m k) k = none := by
  induction m with
  | nil => rfl
  | cons x m ih =>
    obtain ⟨k', v'⟩ := x
    by_cases h : k' = k
    · simpa [GoMap.del, List.filter, h] using ih
    · simpa [GoMap.del, List.filter, h, GoMap.get?] using ih

theorem GoMap.get?_del_ne {V : Type} (m : GoMap V) (k k0 : String) (hne : k ≠ k0) :
    GoMap.get? (GoMap.del m k) k0 = GoMap.get? m k0 := by
  induction m with
  | nil => rfl
  | cons x m ih =>
    obtain ⟨k', v'⟩ := x
    by_cases h : k' = k
    · subst h
      simpa [GoMap.del, List.filter, GoMap.get?, hne] using ih
    · by_cases h0 : k' = k0
      · subst h0
        simp [GoMap.del, List.filter, h, GoMap.get?]
      · simpa [GoMap.del, List.filter, h, GoMap.get?, h0] using ih

theorem GoMap.get?_eq_none_of_not_mem {V : Type} (m : GoMap V) (k : String)
    (h : k ∉ GoMap.keys m) : GoMap.get? m k = none := by
  have := GoMap.get?_append_of_not_mem m [] k h
  simpa [GoMap.get?] using this

/-- `c.Header` touches the header map only. -/
theorem Header_call_frame (w : ResponseWriter) (key value : String) :
    (w.Header key value).status = w.status ∧ (w.Header key value).wire = w.wire
      ∧ (w.Header key value).body = w.body := by
  unfold ResponseWriter.Header
  split <;> simp

/-- The `c.Header` calls for the values of one name touch the header map only. -/
theorem relayValues_frame (key : String) (vs : List String) (w : ResponseWriter) :
    (vs.foldl (fun w value => w.Header key value) w).status = w.status
      ∧ (vs.foldl (fun w value => w.Header key value) w).wire = w.wire
      ∧ (vs.foldl (fun w value => w.Header key value) w).body = w.body := by
  induction vs generalizing w with
  | nil => simp
  | cons v vs ih =>
    rw [List.foldl_cons]
    obtain ⟨h1, h2, h3⟩ := ih (w.Header key v)
    obtain ⟨g1, g2, g3⟩ := Header_call_frame w key v
    exact ⟨h1.trans g1, h2.trans g2, h3.trans g3⟩

/-- The header relay loop touches the header map only. -/
theorem relayHeaders_frame (src : Header) (w : ResponseWriter) :
    (relayHeaders src w).status = w.status ∧ (relayHeaders src w).wire = w.wire
      ∧ (relayHeaders src w).body = w.body := by
  induction src generalizing w with
  | nil => simp [relayHeaders]
  | cons x src ih =>
    unfold relayHeaders
    rw [List.foldl_cons]
    obtain ⟨h1, h2, h3⟩ := ih (x.2.foldl (fun w value => w.Header x.1 value) w)
    obtain ⟨g1, g2, g3⟩ := relayValues_frame x.1 x.2 w
    unfold relayHeaders at h1 h2 h3
    exact ⟨h1.trans g1, h2.trans g2, h3.trans g3⟩

/-- The `c.Header` calls for the values of one canonical name: what they leave
in the header map under a name `k0`. -/
theorem relayValues_get (key k0 : String) (vs : List String) (w : ResponseWriter)
    (hcanon : CanonicalMIMEHeaderKey key = key) :
    GoMap.get? (vs.foldl (fun w value => w.Header key value) w).header k0
      = if key = k0 then lastValue (GoMap.get? w.header k0) vs else GoMap.get? w.header k0 := by
  induction vs generalizing w with
  | nil => simp [lastValue]
  | cons v vs ih =>
    rw [List.foldl_cons, ih]
    by_cases hk : key = k0
    · subst hk
      simp only [if_true, lastValue, List.foldl_cons]
      congr 1
      unfold ResponseWriter.Header
      by_cases hv : v = ""
      · simp [hv, Header.Del, hcanon, GoMap.get?_del_self]
      · simp [hv, Header.Set, hcanon, GoMap.get?_set_self]
    · simp only [hk, if_false]
      unfold ResponseWriter.Header
      by_cases hv : v = ""
      · simp [hv, Header.Del, hcanon, GoMap.get?_del_ne _ _ _ hk]
      · simp [hv, Header.Set, hcanon, GoMap.get?_set_ne _ _ _ _ hk]

/-- The header relay loop over a header set with canonical names, none twice:
what it leaves in the header map under a name `k0`. -/
theorem relayHeaders_get (src : Header) (w : ResponseWriter) (k0 : String)
    (hnodup : (GoMap.keys src).Nodup)
    (hcanon : ∀ k ∈ GoMap.keys src, CanonicalMIMEHeaderKey k = k) :
    GoMap.get? (relayHeaders src w).header k0
      = match GoMap.get? src k0 with
        | none => GoMap.get? w.header k0
        | some vs => lastValue (GoMap.get? w.header k0) vs := by
  induction src generalizing w with
  | nil => simp [relayHeaders, GoMap.get?]
  | cons x src ih =>
    obtain ⟨k, vs⟩ := x
    simp only [GoMap.keys, List.map_cons, List.nodup_cons] at hnodup
    have hc : CanonicalMIMEHeaderKey k = k := hcanon k (by simp [GoMap.keys])
    have ih' := ih (vs.foldl (fun w value => w.Header k value) w) hnodup.2
      (fun k' hk' => hcanon k' (by simp only [GoMap.keys, List.map_cons, List.mem_cons]; exact Or.inr hk'))
    unfold relayHeaders at ih' ⊢
    rw [List.foldl_cons, ih', relayValues_get k k0 vs w hc]
    by_cases hk : k = k0
    · subst hk
      have hnone : GoMap.get? src k = none := GoMap.get?_eq_none_of_not_mem src k hnodup.1
      simp [hnone, GoMap.get?]
    · simp [hk, GoMap.get?]

/-- A render call on a writer that has sent nothing, with a status code that
`net/http` accepts: the status line carries the code, the header map is sent
with the content type filled in if it was missing and without the names
suppressed for the code, and the data is the body when the code allows one. -/
theorem Render_unwritten (w : ResponseWriter) (code : Nat) (ct : List String) (data : Bytes)
    (hw : w.wire = none) (hlo : 100 ≤ code) (hhi : code ≤ 999) :
    w.Render code ct data
      = .ok ⟨code, withContentType w.header ct,
          some (code, sentHeader code (withContentType w.header ct)),
          if bodyAllowedForStatus code then w.body ++ data else w.body⟩ := by
  obtain ⟨st, hd, wire, bd⟩ := w
  simp only at hw
  subst hw
  have hpos : code > 0 := by omega
  have hrange : ¬ (code < 100 ∨ code > 999) := by omega
  by_cases hst : st = code
  · subst hst
    by_cases hb : bodyAllowedForStatus st = true
    · by_cases hct : ((GoMap.get? hd "Content-Type").getD []).length = 0 <;>
        simp [ResponseWriter.Render, ResponseWriter.Status, ResponseWriter.Written,
          writeContentType, withContentType, ResponseWriter.Write,
          ResponseWriter.WriteHeaderNow, hb, hct, hrange]
    · by_cases hct : ((GoMap.get? hd "Content-Type").getD []).length = 0 <;>
        simp [ResponseWriter.Render, ResponseWriter.Status, ResponseWriter.Written,
          writeContentType, withContentType, ResponseWriter.Write,
          ResponseWriter.WriteHeaderNow, hb, hct, hrange]
  · by_cases hb : bodyAllowedForStatus code = true
    · by_cases hct : ((GoMap.get? hd "Content-Type").getD []).length = 0 <;>
        simp [ResponseWriter.Render, ResponseWriter.Status, ResponseWriter.Written,
          writeContentType, withContentType, ResponseWriter.Write,
          ResponseWriter.WriteHeaderNow, hb, hct, hrange, hst, hpos]
    · by_cases hct : ((GoMap.get? hd "Content-Type").getD []).length = 0 <;>
        simp [ResponseWriter.Render, ResponseWriter.Status, ResponseWriter.Written,
          writeContentType, withContentType, ResponseWriter.Write,
          ResponseWriter.WriteHeaderNow, hb, hct, hrange, hst, hpos]

/-- A render call on a writer that has already sent its header: the status line
and the header sent stay, the data is appended to the body when both the code
and the status sent allow a body. -/
theorem Render_written (w : ResponseWriter) (code : Nat) (ct : List String) (data : Bytes)
    (st : Nat) (hd : Header) (hw : w.wire = some (st, hd)) :
    ∃ w', w.Render code ct data = .ok w' ∧ w'.wire = some (st, hd)
      ∧ w'.body = if bodyAllowedForStatus code && bodyAllowedForStatus st
          then w.body ++ data else w.body := by
  obtain ⟨st0, hd0, wire, bd⟩ := w
  simp only at hw
  subst hw
  by_cases hb : bodyAllowedForStatus code = true
  · by_cases hb2 : bodyAllowedForStatus st = true
    · by_cases hct : ((GoMap.get? hd0 "Content-Type").getD []).length = 0 <;>
        simp [ResponseWriter.Render, ResponseWriter.Status, ResponseWriter.Written,
          writeContentType, ResponseWriter.Write, ResponseWriter.WriteHeaderNow, hb, hb2, hct]
    · by_cases hct : ((GoMap.get? hd0 "Content-Type").getD []).length = 0 <;>
        simp [ResponseWriter.Render, ResponseWriter.Status, ResponseWriter.Written,
          writeContentType, ResponseWriter.Write, ResponseWriter.WriteHeaderNow, hb, hb2, hct]
  · by_cases hct : ((GoMap.get? hd0 "Content-Type").getD []).length = 0 <;>
      simp [ResponseWriter.Render, ResponseWriter.Status, ResponseWriter.Written,
        writeContentType, ResponseWriter.Write, ResponseWriter.WriteHeaderNow, hb, hct]

/-! ## The handler: its branches -/

/-- The 500 error object is rendered on a fresh writer: the writer after it. -/
theorem fresh_JSON_500 (obj : H) :
    ResponseWriter.fresh.JSON 500 obj
      = .ok ⟨500, [("Content-Type", jsonContentType)],
          some (500, [("Content-Type", jsonContentType)]), utf8 (marshalH obj)⟩ := by
  rfl

/-- The branch in which `http.NewRequest` fails. -/
theorem forward_no_request (env : Env) (inHeader : Header) (req : OpenAIRequest)
    (w : ResponseWriter) (hurl : env.parseURL (upstreamURL env) = false) :
    forward env inHeader req w
      = ⟨w.JSON 500 [("error", .str "Failed to create request")], []⟩ := by
  unfold upstreamURL at hurl
  simp [forward, jsonMarshal, NewRequest, hurl]

/-- The branch in which `http.DefaultClient.Do` fails. -/
theorem forward_do_error (env : Env) (inHeader : Header) (req : OpenAIRequest)
    (w : ResponseWriter) (e : String) (hurl : env.parseURL (upstreamURL env) = true)
    (hdo : env.Do (outboundFor env inHeader req) = .error e) :
    forward env inHeader req w
      = ⟨w.JSON 500 [("error", .str "Failed to forward request")],
          [outboundFor env inHeader req]⟩ := by
  unfold upstreamURL at hurl
  unfold outboundFor upstreamURL at hdo
  simp [forward, jsonMarshal, NewRequest, hurl, hdo, outboundFor, upstreamURL]

/-- The branch in which `io.ReadAll` fails. -/
theorem forward_read_error (env : Env) (inHeader : Header) (req : OpenAIRequest)
    (w : ResponseWriter) (resp : Response) (e : String)
    (hurl : env.parseURL (upstreamURL env) = true)
    (hdo : env.Do (outboundFor env inHeader req) = .ok resp) (hread : resp.Body = .error e) :
    forward env inHeader req w
      = ⟨w.JSON 500 [("error", .str "Failed to read response body")],
          [outboundFor env inHeader req]⟩ := by
  unfold upstreamURL at hurl
  unfold outboundFor upstreamURL at hdo
  simp [forward, jsonMarshal, NewRequest, hurl, hdo, hread, outboundFor, upstreamURL]

/-- The branch in which the upstream response is read in full. -/
theorem forward_relay (env : Env) (inHeader : Header) (req : OpenAIRequest)
    (w : ResponseWriter) (resp : Response) (b : Bytes)
    (hurl : env.parseURL (upstreamURL env) = true)
    (hdo : env.Do (outboundFor env inHeader req) = .ok resp) (hread : resp.Body = .ok b) :
    forward env inHeader req w
      = ⟨(relayHeaders resp.Header w).Data resp.StatusCode "application/json" b,
          [outboundFor env inHeader req]⟩ := by
  unfold upstreamURL at hurl
  unfold outboundFor upstreamURL at hdo
  simp [forward, jsonMarshal, NewRequest, hurl, hdo, hread, outboundFor, upstreamURL]

/-- On a writer that has already sent its header, the rest of the handler
returns normally, leaves the status line and the header sent as they are, and
only appends to the body. -/
theorem forward_written (env : Env) (inHeader : Header) (req : OpenAIRequest)
    (w : ResponseWriter) (st : Nat) (hd : Header) (hw : w.wire = some (st, hd)) :
    ∃ w', (forward env inHeader req w).result = .ok w' ∧ w'.wire = some (st, hd)
      ∧ w.body <+: w'.body := by
  have key : ∀ (w0 : ResponseWriter) (code : Nat) (ct : List String) (data : Bytes),
      w0.wire = some (st, hd) → w0.body = w.body →
      ∃ w', w0.Render code ct data = .ok w' ∧ w'.wire = some (st, hd) ∧ w.body <+: w'.body := by
    intro w0 code ct data h0 hb0
    obtain ⟨w', h1, h2, h3⟩ := Render_written w0 code ct data st hd h0
    refine ⟨w', h1, h2, ?_⟩
    rw [h3, hb0]
    split
    · exact List.prefix_append _ _
    · exact List.prefix_refl _
  by_cases hurl : env.parseURL (upstreamURL env) = true
  · cases hdo : env.Do (outboundFor env inHeader req) with
    | error e =>
      rw [forward_do_error env inHeader req w e hurl hdo]
      exact key w 500 _ _ hw rfl
    | ok resp =>
      cases hread : resp.Body with
      | error e =>
        rw [forward_read_error env inHeader req w resp e hurl hdo hread]
        exact key w 500 _ _ hw rfl
      | ok b =>
        rw [forward_relay env inHeader req w resp b hurl hdo hread]
        obtain ⟨_, g2, g3⟩ := relayHeaders_frame resp.Header w
        exact key _ resp.StatusCode _ _ (g2.trans hw) g3
  · have hurl' : env.parseURL (upstreamURL env) = false := by simpa using hurl
    rw [forward_no_request env inHeader req w hurl']
    exact key w 500 _ _ hw rfl

/-! ## Response relay (C4, C6, C7) -/

/-- C4 (failing input): an upstream response with two `Set-Cookie` values; the
response written to the caller carries the last value only. -/
theorem relay_keeps_last_header_value_only :
    (chatCompletions (answering [] ⟨200, [("Set-Cookie", ["a=1", "b=2"])], .ok []⟩) []
        scenarioBody).result
      = .ok ⟨200, [("Set-Cookie", ["b=2"]), ("Content-Type", ["application/json"])],
          some (200, [("Set-Cookie", ["b=2"]), ("Content-Type", ["application/json"])]), []⟩ := by
  decide

/-- C6 (counterexample): an upstream response with status 204, or with status
101 and the headers of a protocol switch, and the one-byte body `x`; the
request decodes, the status is relayed, the body written to the caller is
empty. -/
theorem relay_writes_no_body_for_204 :
    (ShouldBind scenarioBody).2 = none
      ∧ (chatCompletions (answering [] ⟨204, [], .ok [120]⟩) [] scenarioBody).result
        = .ok ⟨204, [("Content-Type", ["application/json"])],
            some (204, [("Content-Type", ["application/json"])]), []⟩
      ∧ (chatCompletions (answering []
            ⟨101, [("Connection", ["Upgrade"]), ("Upgrade", ["websocket"])], .ok [120]⟩) []
          scenarioBody).result
        = .ok ⟨101, [("Connection", ["Upgrade"]), ("Upgrade", ["websocket"]),
              ("Content-Type", ["application/json"])],
            some (101, [("Connection", ["Upgrade"]), ("Upgrade", ["websocket"]),
              ("Content-Type", ["application/json"])]), []⟩ := by
  decide

/-- C6 (amended): for every inbound body that decodes without error and every
upstream response with a status code `s` in 200..999 whose body `b` is read in
full, the handler returns normally, the status line it sends carries exactly
`s`, and the body it sends is exactly `b`, except for `s` 204 or 304, for which
it sends no body. -/
theorem relay_status_and_body (env : Env) (inHeader : Header) (body : String)
    (resp : Response) (b : Bytes)
    (hdec : (ShouldBind body).2 = none)
    (hurl : env.parseURL (upstreamURL env) = true)
    (hdo : env.Do (outbound env inHeader body) = .ok resp)
    (hread : resp.Body = .ok b)
    (hlo : 200 ≤ resp.StatusCode) (hhi : resp.StatusCode ≤ 999) :
    ∃ w hdr, (chatCompletions env inHeader body).result = .ok w
      ∧ w.wire = some (resp.StatusCode, hdr)
      ∧ w.body = if resp.StatusCode = 204 ∨ resp.StatusCode = 304 then [] else b := by
  obtain ⟨g1, g2, g3⟩ := relayHeaders_frame resp.Header ResponseWriter.fresh
  have hr := Render_unwritten (relayHeaders resp.Header ResponseWriter.fresh) resp.StatusCode
    ["application/json"] b (g2.trans rfl) (by omega) hhi
  have hres : (chatCompletions env inHeader body).result
      = (relayHeaders resp.Header ResponseWriter.fresh).Render resp.StatusCode
          ["application/json"] b := by
    unfold chatCompletions
    simp only [hdec]
    rw [forward_relay env inHeader _ _ resp b hurl hdo hread]
    rfl
  rw [hr] at hres
  refine ⟨_, _, hres, rfl, ?_⟩
  · have g3' : (relayHeaders resp.Header ResponseWriter.fresh).body = [] := g3
    simp only [g3', List.nil_append, bodyAllowedForStatus]
    have h1 : ¬ (100 ≤ resp.StatusCode ∧ resp.StatusCode ≤ 199) := by omega
    by_cases h204 : resp.StatusCode = 204
    · simp [h204]
    · by_cases h304 : resp.StatusCode = 304
      · simp [h304]
      · simp [h1, h204, h304]

/-- C6 (witness): scenario 5, status 429 with its body. -/
theorem relay_status_and_body_witness :
    (ShouldBind scenarioBody).2 = none
      ∧ (answering scenarioTable rateLimited).parseURL
          (upstreamURL (answering scenarioTable rateLimited)) = true
      ∧ (answering scenarioTable rateLimited).Do
          (outbound (answering scenarioTable rateLimited) [] scenarioBody) = .ok rateLimited
      ∧ rateLimited.Body = .ok (utf8 "\x7b\"error\":\"rate limited\"\x7d")
      ∧ 200 ≤ rateLimited.StatusCode ∧ rateLimited.StatusCode ≤ 999
      ∧ ∃ w hdr, (chatCompletions (answering scenarioTable rateLimited) [] scenarioBody).result
            = .ok w
          ∧ w.wire = some (rateLimited.StatusCode, hdr)
          ∧ w.body = if rateLimited.StatusCode = 204 ∨ rateLimited.StatusCode = 304 then []
              else utf8 "\x7b\"error\":\"rate limited\"\x7d" :=
  ⟨by decide, rfl, rfl, rfl, by decide, by decide,
    relay_status_and_body (answering scenarioTable rateLimited) [] scenarioBody rateLimited
      (utf8 "\x7b\"error\":\"rate limited\"\x7d") (by decide) rfl rfl rfl (by decide) (by decide)⟩

/-- The names suppressed on a status other than 304 leave `Content-Type` as the
handler set it. -/
theorem sentHeader_contentType (status : Nat) (h : Header) (hs : status ≠ 304) :
    GoMap.get? (sentHeader status h) "Content-Type" = GoMap.get? h "Content-Type" := by
  unfold sentHeader suppressedHeaders
  simp only [hs, if_false]
  split
  · rfl
  · simp only [List.foldl_cons, List.foldl_nil]
    rw [GoMap.get?_del_ne _ _ _ (by decide), GoMap.get?_del_ne _ _ _ (by decide)]

/-- On a 304 no `Content-Type` is sent. -/
theorem sentHeader_contentType_304 (h : Header) :
    GoMap.get? (sentHeader 304 h) "Content-Type" = none := by
  unfold sentHeader suppressedHeaders
  simp only [if_true, List.foldl_cons, List.foldl_nil]
  rw [GoMap.get?_del_ne _ _ _ (by decide), GoMap.get?_del_ne _ _ _ (by decide),
    GoMap.get?_del_self]

/-- C7 (counterexample): an upstream response that declares
`Content-Type: text/event-stream`; the response sent to the caller declares
`text/event-stream`, not `application/json`. And an upstream response with
status 304: the response sent to the caller declares no content type. -/
theorem relay_keeps_upstream_content_type :
    (chatCompletions
        (answering [] ⟨200, [("Content-Type", ["text/event-stream"])], .ok [100, 97, 116, 97]⟩)
        [] scenarioBody).result
      = .ok ⟨200, [("Content-Type", ["text/event-stream"])],
          some (200, [("Content-Type", ["text/event-stream"])]), [100, 97, 116, 97]⟩
      ∧ (chatCompletions (answering [] ⟨304, [("Etag", ["\"v1\""])], .ok []⟩) []
          scenarioBody).result
        = .ok ⟨304, [("Etag", ["\"v1\""]), ("Content-Type", ["application/json"])],
            some (304, [("Etag", ["\"v1\""])]), []⟩ := by
  decide

/-- C7 (amended): for every inbound body that decodes without error and every
upstream response read in full (status code in 200..999; header names
canonical, none twice): on a status other than 304, when the upstream declares
no `Content-Type` the response sent to the caller declares `application/json`,
and when the upstream declares one non-empty `Content-Type` value the response
declares that value; on a 304 the response sent declares no content type. -/
theorem relay_content_type (env : Env) (inHeader : Header) (body : String)
    (resp : Response) (b : Bytes)
    (hdec : (ShouldBind body).2 = none)
    (hurl : env.parseURL (upstreamURL env) = true)
    (hdo : env.Do (outbound env inHeader body) = .ok resp)
    (hread : resp.Body = .ok b)
    (hlo : 200 ≤ resp.StatusCode) (hhi : resp.StatusCode ≤ 999)
    (hnodup : (GoMap.keys resp.Header).Nodup)
    (hcanon : ∀ k ∈ GoMap.keys resp.Header, CanonicalMIMEHeaderKey k = k) :
    ∃ w hdr, (chatCompletions env inHeader body).result = .ok w
      ∧ w.wire = some (resp.StatusCode, hdr)
      ∧ (resp.StatusCode ≠ 304 → GoMap.get? resp.Header "Content-Type" = none →
          GoMap.get? hdr "Content-Type" = some ["application/json"])
      ∧ (resp.StatusCode ≠ 304 → ∀ v, v ≠ "" →
          GoMap.get? resp.Header "Content-Type" = some [v] →
          GoMap.get? hdr "Content-Type" = some [v])
      ∧ (resp.StatusCode = 304 → GoMap.get? hdr "Content-Type" = none) := by
  obtain ⟨g1, g2, g3⟩ := relayHeaders_frame resp.Header ResponseWriter.fresh
  have hr := Render_unwritten (relayHeaders resp.Header ResponseWriter.fresh) resp.StatusCode
    ["application/json"] b (g2.trans rfl) (by omega) hhi
  have hget := relayHeaders_get resp.Header ResponseWriter.fresh "Content-Type" hnodup hcanon
  have hres : (chatCompletions env inHeader body).result
      = (relayHeaders resp.Header ResponseWriter.fresh).Render resp.StatusCode
          ["application/json"] b := by
    unfold chatCompletions
    simp only [hdec]
    rw [forward_relay env inHeader _ _ resp b hurl hdo hread]
    rfl
  rw [hr] at hres
  refine ⟨_, _, hres, rfl, ?_, ?_, ?_⟩
  · intro hs hnone
    rw [hnone] at hget
    have hget' : GoMap.get? (relayHeaders resp.Header ResponseWriter.fresh).header
        "Content-Type" = none := hget
    rw [sentHeader_contentType _ _ hs]
    simp [withContentType, hget', GoMap.get?_set_self]
  · intro hs v hv hsome
    rw [hsome] at hget
    have hget' : GoMap.get? (relayHeaders resp.Header ResponseWriter.fresh).header
        "Content-Type" = some [v] := by
      rw [hget]
      simp [lastValue, hv]
    rw [sentHeader_contentType _ _ hs]
    simp [withContentType, hget']
  · intro hs
    rw [hs]
    exact sentHeader_contentType_304 _

/-- C7 (witness): an upstream response without a `Content-Type` header. -/
theorem relay_content_type_witness :
    (ShouldBind scenarioBody).2 = none
      ∧ (GoMap.keys (⟨200, [("X-Request-Id", ["7"])], .ok []⟩ : Response).Header).Nodup
      ∧ (∀ k ∈ GoMap.keys (⟨200, [("X-Request-Id", ["7"])], .ok []⟩ : Response).Header,
          CanonicalMIMEHeaderKey k = k)
      ∧ ∃ w hdr, (chatCompletions (answering [] ⟨200, [("X-Request-Id", ["7"])], .ok []⟩) []
            scenarioBody).result = .ok w
          ∧ w.wire = some (200, hdr)
          ∧ ((200 : Nat) ≠ 304 → GoMap.get? [("X-Request-Id", ["7"])] "Content-Type" = none →
              GoMap.get? hdr "Content-Type" = some ["application/json"])
          ∧ ((200 : Nat) ≠ 304 → ∀ v, v ≠ "" →
              GoMap.get? [("X-Request-Id", ["7"])] "Content-Type" = some [v] →
              GoMap.get? hdr "Content-Type" = some [v])
          ∧ ((200 : Nat) = 304 → GoMap.get? hdr "Content-Type" = none) :=
  ⟨by decide, by decide, by decide,
    relay_content_type (answering [] ⟨200, [("X-Request-Id", ["7"])], .ok []⟩) [] scenarioBody
      ⟨200, [("X-Request-Id", ["7"])], .ok []⟩ [] (by decide) rfl rfl rfl (by decide) (by decide)
      (by decide) (by decide)⟩

/-! ## Error responses (C8, C9, C10) -/

/-- C8 (failing input): the body `\x7b`. The handler sends status 400 and the
error object, then goes on: with an upstream that answers, the upstream body
follows the error object in the response body; with an upstream that cannot be
reached, the 500 error object follows it. -/
theorem malformed_body_response_has_trailing_bytes :
    (chatCompletions answeringOk [] "\x7b").result
      = .ok ⟨400, [("Content-Type", ["application/json"])],
          some (400, [("Content-Type", jsonContentType)]),
          utf8 "\x7b\"code\":400,\"error\":\"unexpected EOF\"\x7d" ++ utf8 "\x7b\"ok\":true\x7d"⟩
      ∧ (chatCompletions (unreachable []) [] "\x7b").result
        = .ok ⟨400, [("Content-Type", jsonContentType)],
            some (400, [("Content-Type", jsonContentType)]),
            utf8 "\x7b\"code\":400,\"error\":\"unexpected EOF\"\x7d"
              ++ utf8 "\x7b\"error\":\"Failed to forward request\"\x7d"⟩ := by
  decide

/-- C9 (counterexample): when the outbound request cannot be built the client is
not called at all; and for a body that fails to decode, a failed network call
leaves the status 400 that was already sent. -/
theorem dispatch_failure_zero_calls_or_status_400 :
    (chatCompletions badBase [] scenarioBody).calls.length = 0
      ∧ (chatCompletions (unreachable []) [] "\x7b").result.map (fun w => w.wire.map Prod.fst)
        = .ok (some 400) := by
  decide

/-- C9 (amended): for every inbound body that decodes without error and for
which the dispatch fails (the outbound request cannot be built, or the client
returns an error, or the response body cannot be read), the handler returns
normally having sent status 500, the JSON content type alone as header, and
as body the JSON object with the one key `error` holding a fixed message; the
client is called at most once: once when the request could be built, not at
all when it could not. -/
theorem dispatch_failure_answers_500 (env : Env) (inHeader : Header) (body : String)
    (hdec : (ShouldBind body).2 = none)
    (hfail : env.parseURL (upstreamURL env) = false
      ∨ (∃ e, env.Do (outbound env inHeader body) = .error e)
      ∨ (∃ resp e, env.Do (outbound env inHeader body) = .ok resp ∧ resp.Body = .error e)) :
    (∃ msg ∈ ["Failed to create request", "Failed to forward request",
          "Failed to read response body"],
        (chatCompletions env inHeader body).result
          = .ok ⟨500, [("Content-Type", jsonContentType)],
              some (500, [("Content-Type", jsonContentType)]),
              utf8 (marshalH [("error", .str msg)])⟩)
      ∧ (chatCompletions env inHeader body).calls.length ≤ 1
      ∧ (env.parseURL (upstreamURL env) = true →
          (chatCompletions env inHeader body).calls = [outbound env inHeader body])
      ∧ (env.parseURL (upstreamURL env) = false →
          (chatCompletions env inHeader body).calls = []) := by
  have hcalls := chatCompletions_calls env inHeader body
  refine ⟨?_, ?_, ?_, ?_⟩
  · unfold chatCompletions
    simp only [hdec]
    by_cases hurl : env.parseURL (upstreamURL env) = true
    · rcases hfail with h | ⟨e, h⟩ | ⟨resp, e, h, hread⟩
      · rw [hurl] at h
        exact absurd h (by simp)
      · refine ⟨"Failed to forward request", by simp, ?_⟩
        rw [forward_do_error env inHeader _ _ e hurl h, fresh_JSON_500]
      · refine ⟨"Failed to read response body", by simp, ?_⟩
        rw [forward_read_error env inHeader _ _ resp e hurl h hread, fresh_JSON_500]
    · have hurl' : env.parseURL (upstreamURL env) = false := by simpa using hurl
      refine ⟨"Failed to create request", by simp, ?_⟩
      rw [forward_no_request env inHeader _ _ hurl', fresh_JSON_500]
  · rw [hcalls]
    split <;> simp
  · intro hurl
    rw [hcalls]
    simp [hurl, outbound, outboundFor]
  · intro hurl
    rw [hcalls]
    simp [hurl]

/-- C9 (witness): scenario 4, the upstream cannot be reached. -/
theorem dispatch_failure_answers_500_witness :
    (ShouldBind scenarioBody).2 = none
      ∧ (∃ e, (unreachable scenarioTable).Do (outbound (unreachable scenarioTable) [] scenarioBody)
          = .error e)
      ∧ (∃ msg ∈ ["Failed to create request", "Failed to forward request",
            "Failed to read response body"],
          (chatCompletions (unreachable scenarioTable) [] scenarioBody).result
            = .ok ⟨500, [("Content-Type", jsonContentType)],
                some (500, [("Content-Type", jsonContentType)]),
                utf8 (marshalH [("error", .str msg)])⟩)
      ∧ (chatCompletions (unreachable scenarioTable) [] scenarioBody).calls.length ≤ 1
      ∧ ((unreachable scenarioTable).parseURL (upstreamURL (unreachable scenarioTable)) = true →
          (chatCompletions (unreachable scenarioTable) [] scenarioBody).calls
            = [outbound (unreachable scenarioTable) [] scenarioBody])
      ∧ ((unreachable scenarioTable).parseURL (upstreamURL (unreachable scenarioTable)) = false →
          (chatCompletions (unreachable scenarioTable) [] scenarioBody).calls = []) :=
  ⟨by decide, ⟨"connection refused", rfl⟩,
    dispatch_failure_answers_500 (unreachable scenarioTable) [] scenarioBody (by decide)
      (Or.inr (Or.inl ⟨"connection refused", rfl⟩))⟩

/-- C10 (counterexample): the body `mistypedBody` fails to decode (a string
where `stream` wants a bool) and the request forwarded upstream carries the
model `gpt-4` that was decoded, not the zero-valued request. -/
theorem failed_decode_forwards_decoded_fields :
    (ShouldBind mistypedBody).2
        = some "json: cannot unmarshal string into Go struct field OpenAIRequest.stream of type bool"
      ∧ (chatCompletions answeringOk [] mistypedBody).calls
        = [⟨"POST", "https://api.openai.com/v1/chat/completions", [],
            "\x7b\"model\":\"gpt-4\",\"messages\":null,\"stream\":false\x7d"⟩]
      ∧ (ShouldBind mistypedBody).1 ≠ OpenAIRequest.zero := by
  decide

/-- C10 (amended): for every inbound body that fails to decode with error
`err`, the handler sends status 400, the JSON content type and the error object
with keys `error` (holding `err`) and `code` (400), and still goes on: the rest
of the handler returns normally and only appends to the body; the request it
hands to the client, when the outbound request can be built, is the struct as
the failed decode left it, rewritten through the table and serialized; that
struct is the zero value whenever no JSON value could be read from the body. -/
theorem decode_failure_falls_through (env : Env) (inHeader : Header) (body err : String)
    (hdec : (ShouldBind body).2 = some err) :
    (∃ w, (chatCompletions env inHeader body).result = .ok w
        ∧ w.wire = some (400, [("Content-Type", jsonContentType)])
        ∧ utf8 (marshalH [("error", .str err), ("code", .int 400)]) <+: w.body)
      ∧ (chatCompletions env inHeader body).calls
        = (if env.parseURL (upstreamURL env) = true then
            [⟨"POST", upstreamURL env, copyHeaders inHeader [],
              String.mk (marshalText (replaceModel env.MODEL_TABLE (ShouldBind body).1))⟩]
          else [])
      ∧ (∀ e, readValue body.data = .error e → (ShouldBind body).1 = OpenAIRequest.zero) := by
  refine ⟨?_, chatCompletions_calls env inHeader body, ?_⟩
  · unfold chatCompletions
    simp only [hdec, fresh_JSON_400]
    exact forward_written env inHeader _ _ 400 _ rfl
  · intro e he
    simp [ShouldBind, he]

/-- C10 (witness): the body `\x7b` with an upstream that answers. -/
theorem decode_failure_falls_through_witness :
    (ShouldBind "\x7b").2 = some "unexpected EOF"
      ∧ (∃ w, (chatCompletions answeringOk [] "\x7b").result = .ok w
          ∧ w.wire = some (400, [("Content-Type", jsonContentType)])
          ∧ utf8 (marshalH [("error", .str "unexpected EOF"), ("code", .int 400)]) <+: w.body)
      ∧ (chatCompletions answeringOk [] "\x7b").calls
        = (if answeringOk.parseURL (upstreamURL answeringOk) = true then
            [⟨"POST", upstreamURL answeringOk, copyHeaders [] [],
              String.mk (marshalText (replaceModel answeringOk.MODEL_TABLE (ShouldBind "\x7b").1))⟩]
          else [])
      ∧ (∀ e, readValue ("\x7b" : String).data = .error e
          → (ShouldBind "\x7b").1 = OpenAIRequest.zero) :=
  ⟨by decide, decode_failure_falls_through answeringOk [] "\x7b" "unexpected EOF" (by decide)⟩

/-! ## JSON round trip (C5) -/

theorem hex4_low (n : Nat) (hn : n < 64) :
    hex4 '0' '0' (hexDigit (n / 16)) (hexDigit (n % 16)) = some n := by
  interval_cases n <;> rfl

theorem toNat_eq_imp (c : Char) (n : Nat) (h : c.toNat = n) : c = Char.ofNat n := by
  rw [← h, Char.ofNat_toNat]

theorem parseStringBody_escapeChar (fuel : Nat) (c : Char) (t : List Char) :
    parseStringBody (fuel + 1) (escapeChar c ++ t) = consChar c (parseStringBody fuel t) := by
  unfold escapeChar
  split
  · rename_i h
    rcases h with h | h <;> subst h <;> rfl
  split
  · rename_i h; subst h; rfl
  split
  · rename_i h; subst h; rfl
  split
  · rename_i h; subst h; rfl
  split
  · rename_i h; subst h; rfl
  split
  · rename_i h; subst h; rfl
  split
  · rename_i h
    have hlt : c.toNat < 64 := by
      rcases h with h | h | h | h
      · omega
      · subst h; decide
      · subst h; decide
      · subst h; decide
    have hx := hex4_low c.toNat hlt
    have hs : isSurrogate c.toNat = false := by
      simp only [isSurrogate, Bool.and_eq_false_imp, decide_eq_true_eq, decide_eq_false_iff_not]
      omega
    simp only [List.cons_append, List.nil_append]
    rw [parseStringBody]
    simp [getu4, hx, hs, Char.ofNat_toNat]
  split
  · rename_i h
    rcases h with h | h
    · have := toNat_eq_imp c _ h
      subst this
      rfl
    · have := toNat_eq_imp c _ h
      subst this
      rfl
  · rename_i h1 h2 h3 h4 h5 h6 h7 h8
    simp only [List.cons_append, List.nil_append]
    have hq : ¬ c = '"' := fun h => h1 (Or.inr h)
    have hb : ¬ c = '\\' := fun h => h1 (Or.inl h)
    have hc : ¬ c.toNat < 0x20 := fun h => h7 (Or.inl h)
    simp only [parseStringBody, hq, hb, hc, if_false]

theorem escapeChar_length (c : Char) : 1 ≤ (escapeChar c).length := by
  unfold escapeChar
  repeat' split
  all_goals simp

theorem flatMap_escapeChar_length (s : List Char) : s.length ≤ (s.flatMap escapeChar).length := by
  induction s with
  | nil => simp
  | cons c s ih =>
    have := escapeChar_length c
    simp only [List.flatMap_cons, List.length_cons, List.length_append]
    omega

theorem parseStringBody_escaped (s rest : List Char) (fuel : Nat) (h : s.length < fuel) :
    parseStringBody fuel (s.flatMap escapeChar ++ '"' :: rest) = .ok (s, rest) := by
  induction s generalizing fuel with
  | nil =>
    obtain ⟨f, rfl⟩ : ∃ f, fuel = f + 1 := ⟨fuel - 1, by simp at h; omega⟩
    simp [parseStringBody]
  | cons c s ih =>
    obtain ⟨f, rfl⟩ : ∃ f, fuel = f + 1 := ⟨fuel - 1, by simp at h; omega⟩
    simp only [List.flatMap_cons, List.append_assoc]
    rw [parseStringBody_escapeChar, ih f (by simp at h; omega)]
    rfl

theorem parseString_quoted (s : String) (rest : List Char) :
    parseString (s.data.flatMap escapeChar ++ '"' :: rest) = .ok (s.data, rest) := by
  unfold parseString
  apply parseStringBody_escaped
  have := flatMap_escapeChar_length s.data
  simp only [List.length_append, List.length_cons]
  omega

theorem skipSpace_cons_of_not_space (c : Char) (r : List Char) (h : isSpace c = false) :
    skipSpace (c :: r) = c :: r := by
  simp [skipSpace, h]

/-- A string value is read back from its encoding. -/
theorem parseValue_string (f d : Nat) (s : String) (rest : List Char) :
    parseValue (f + 1) d (appendString s ++ rest) = .ok (.str s, rest) := by
  have h := parseString_quoted s rest
  simp only [appendString, List.cons_append, List.append_assoc, List.singleton_append]
  rw [parseValue, skipSpace_cons_of_not_space _ _ (by decide)]
  simp [h]

/-- A bool value is read back from its encoding. -/
theorem parseValue_bool (f d : Nat) (b : Bool) (rest : List Char) :
    parseValue (f + 1) d (marshalBool b ++ rest) = .ok (.bool b, rest) := by
  cases b
  · show parseValue (f + 1) d ('f' :: 'a' :: 'l' :: 's' :: 'e' :: rest) = _
    rw [parseValue, skipSpace_cons_of_not_space _ _ (by decide)]
    simp [parseWord, List.isPrefixOf]
  · show parseValue (f + 1) d ('t' :: 'r' :: 'u' :: 'e' :: rest) = _
    rw [parseValue, skipSpace_cons_of_not_space _ _ (by decide)]
    simp [parseWord, List.isPrefixOf]

/-- The literal `null` is read back. -/
theorem parseValue_null (f d : Nat) (rest : List Char) :
    parseValue (f + 1) d ('n' :: 'u' :: 'l' :: 'l' :: rest) = .ok (.null, rest) := by
  rw [parseValue, skipSpace_cons_of_not_space _ _ (by decide)]
  simp [parseWord, List.isPrefixOf]

/-- The last member of an object. -/
theorem parseMembers_last (f d : Nat) (k : String) (V : List Char) (v : Json) (rest : List Char)
    (hv : parseValue f d (V ++ '\x7d' :: rest) = .ok (v, '\x7d' :: rest)) :
    parseMembers (f + 1) d (appendString k ++ ':' :: (V ++ '\x7d' :: rest))
      = .ok ([(k, v)], rest) := by
  have h := parseString_quoted k (':' :: (V ++ '\x7d' :: rest))
  simp only [appendString, List.cons_append, List.append_assoc, List.singleton_append]
  rw [parseMembers, skipSpace_cons_of_not_space _ _ (by decide)]
  simp [h, skipSpace_cons_of_not_space, isSpace, hv]

/-- A member of an object that is followed by more members. -/
theorem parseMembers_more (f d : Nat) (k : String) (V : List Char) (v : Json)
    (more rest : List Char) (ms : List (String × Json))
    (hv : parseValue f d (V ++ ',' :: more) = .ok (v, ',' :: more))
    (hm : parseMembers f d more = .ok (ms, rest)) :
    parseMembers (f + 1) d (appendString k ++ ':' :: (V ++ ',' :: more))
      = .ok ((k, v) :: ms, rest) := by
  have h := parseString_quoted k (':' :: (V ++ ',' :: more))
  simp only [appendString, List.cons_append, List.append_assoc, List.singleton_append]
  rw [parseMembers, skipSpace_cons_of_not_space _ _ (by decide)]
  simp [h, skipSpace_cons_of_not_space, isSpace, hv, hm]

theorem marshalMessage_eq (m : Message) (rest : List Char) :
    marshalMessage m ++ rest
      = '\x7b' :: (appendString "role" ++ ':' :: (appendString m.Role ++ ',' ::
          (appendString "content" ++ ':' :: (appendString m.Content ++ '\x7d' :: rest)))) := by
  simp [marshalMessage, appendString, escapeChar]

/-- An object whose members are read is read as an object. -/
theorem parseValue_object (f d : Nat) (k : String) (X : List Char)
    (ms : List (String × Json)) (rest : List Char) (hd : d < maxNestingDepth)
    (hm : parseMembers f (d + 1) (appendString k ++ X) = .ok (ms, rest)) :
    parseValue (f + 1) d ('\x7b' :: (appendString k ++ X)) = .ok (.obj ms, rest) := by
  obtain ⟨tl, htl⟩ : ∃ tl, appendString k ++ X = '"' :: tl := ⟨k.data.flatMap escapeChar ++ '"' :: X, by simp [appendString]⟩
  have hd' : ¬ d ≥ maxNestingDepth := by omega
  rw [htl] at hm ⊢
  rw [parseValue, skipSpace_cons_of_not_space _ _ (by decide)]
  simp only [hd', if_false]
  rw [skipSpace_cons_of_not_space _ _ (by decide)]
  simp [hm]

/-- An encoded message is read back as its scanned value. -/
theorem parseValue_message (f d : Nat) (m : Message) (rest : List Char)
    (hd : d < maxNestingDepth) :
    parseValue (f + 4) d (marshalMessage m ++ rest) = .ok (m.toJson, rest) := by
  have h2 := parseMembers_last (f + 1) (d + 1) "content" (appendString m.Content)
    (.str m.Content) rest (parseValue_string f (d + 1) m.Content _)
  have h1 := parseMembers_more (f + 2) (d + 1) "role" (appendString m.Role) (.str m.Role)
    _ rest _ (parseValue_string (f + 1) (d + 1) m.Role _) h2
  rw [marshalMessage_eq]
  exact parseValue_object (f + 3) d "role" _ _ rest hd h1

theorem joinComma_cons_cons (x y : List Char) (r : List (List Char)) :
    joinComma (x :: y :: r) = x ++ ',' :: joinComma (y :: r) := by
  simp [joinComma]

/-- The encoded elements of a non-empty slice are read back in order. -/
theorem parseElements_messages (l : List Message) (m : Message) (f d : Nat) (rest : List Char)
    (hd : d < maxNestingDepth) (hf : l.length + 5 ≤ f) :
    parseElements f d (joinComma ((m :: l).map marshalMessage) ++ ']' :: rest)
      = .ok ((m :: l).map Message.toJson, rest) := by
  induction l generalizing m f with
  | nil =>
    obtain ⟨g, rfl⟩ : ∃ g, f = g + 5 := ⟨f - 5, by simp at hf; omega⟩
    have hv := parseValue_message g d m (']' :: rest) hd
    simp only [List.map_cons, List.map_nil, joinComma, List.flatMap_nil, List.append_nil]
    rw [parseElements]
    simp [hv, skipSpace_cons_of_not_space, isSpace]
  | cons m' l ih =>
    obtain ⟨g, rfl⟩ : ∃ g, f = g + 5 := ⟨f - 5, by simp at hf; omega⟩
    have hrec := ih m' (g + 4) (by simp at hf; omega)
    simp only [List.map_cons] at hrec ⊢
    rw [joinComma_cons_cons, List.append_assoc, List.cons_append]
    have hv := parseValue_message g d m
      (',' :: (joinComma (marshalMessage m' :: l.map marshalMessage) ++ ']' :: rest)) hd
    rw [parseElements]
    simp [hv, skipSpace_cons_of_not_space, isSpace, hrec]

theorem marshalMessage_head (m : Message) (rest : List Char) :
    ∃ tl, marshalMessage m ++ rest = '\x7b' :: tl := ⟨_, marshalMessage_eq m rest⟩

theorem joinComma_head (m : Message) (l : List Message) (rest : List Char) :
    ∃ tl, joinComma ((m :: l).map marshalMessage) ++ rest = '\x7b' :: tl := by
  simp only [List.map_cons, joinComma, List.append_assoc]
  exact marshalMessage_head m _

/-- An array whose elements are read is read as an array. -/
theorem parseValue_array (f d : Nat) (tl : List Char) (es : List Json) (rest : List Char)
    (hd : d < maxNestingDepth)
    (he : parseElements f (d + 1) ('\x7b' :: tl) = .ok (es, rest)) :
    parseValue (f + 1) d ('[' :: '\x7b' :: tl) = .ok (.arr es, rest) := by
  have hd' : ¬ d ≥ maxNestingDepth := by omega
  rw [parseValue, skipSpace_cons_of_not_space _ _ (by decide)]
  simp only [hd', if_false]
  rw [skipSpace_cons_of_not_space _ _ (by decide)]
  simp [he]

/-- An encoded `Messages` slice is read back as its scanned value. -/
theorem parseValue_messages (ms : Option (List Message)) (f d : Nat) (rest : List Char)
    (hd : d + 1 < maxNestingDepth) (hf : (ms.getD []).length + 5 ≤ f) :
    parseValue f d (marshalMessages ms ++ rest) = .ok (messagesJson ms, rest) := by
  obtain ⟨g, rfl⟩ : ∃ g, f = g + 1 := ⟨f - 1, by omega⟩
  have hd' : ¬ d ≥ maxNestingDepth := by omega
  cases ms with
  | none => exact parseValue_null g d rest
  | some l =>
    cases l with
    | nil =>
      show parseValue (g + 1) d ('[' :: ']' :: rest) = _
      rw [parseValue, skipSpace_cons_of_not_space _ _ (by decide)]
      simp only [hd', if_false]
      rw [skipSpace_cons_of_not_space _ _ (by decide)]
      simp [messagesJson]
    | cons m l =>
      have he := parseElements_messages l m g (d + 1) rest hd (by simp at hf; omega)
      obtain ⟨tl, htl⟩ := joinComma_head m l (']' :: rest)
      have hshape : marshalMessages (some (m :: l)) ++ rest
          = '[' :: (joinComma ((m :: l).map marshalMessage) ++ ']' :: rest) := by
        simp [marshalMessages]
      rw [hshape, htl]
      rw [htl] at he
      exact parseValue_array g d tl _ rest (by omega) he

theorem marshalText_eq (r : OpenAIRequest) (rest : List Char) :
    marshalText r ++ rest
      = '\x7b' :: (appendString "model" ++ ':' :: (appendString r.Model ++ ',' ::
          (appendString "messages" ++ ':' :: (marshalMessages r.Messages ++ ',' ::
            (appendString "stream" ++ ':' :: (marshalBool r.Stream ++ '\x7d' :: rest)))))) := by
  simp [marshalText, appendString, escapeChar]

/-- The encoding of a request is read back as its scanned value, with enough
fuel. -/
theorem parseValue_request (r : OpenAIRequest) (f : Nat) (rest : List Char)
    (hf : (r.Messages.getD []).length + 8 ≤ f) :
    parseValue f 0 (marshalText r ++ rest) = .ok (r.toJson, rest) := by
  obtain ⟨g, rfl⟩ : ∃ g, f = g + 8 := ⟨f - 8, by omega⟩
  have hdepth : 1 + 1 < maxNestingDepth := by unfold maxNestingDepth; omega
  have hdepth0 : 0 < maxNestingDepth := by unfold maxNestingDepth; omega
  have v3 : parseValue (g + 4) 1 (marshalBool r.Stream ++ '\x7d' :: rest)
      = .ok (.bool r.Stream, '\x7d' :: rest) := parseValue_bool (g + 3) 1 r.Stream _
  have h3 : parseMembers (g + 5) 1
      (appendString "stream" ++ ':' :: (marshalBool r.Stream ++ '\x7d' :: rest))
      = .ok ([("stream", .bool r.Stream)], rest) :=
    parseMembers_last (g + 4) 1 "stream" (marshalBool r.Stream) (.bool r.Stream) rest v3
  have v2 : parseValue (g + 5) 1 (marshalMessages r.Messages ++ ',' ::
      (appendString "stream" ++ ':' :: (marshalBool r.Stream ++ '\x7d' :: rest)))
      = .ok (messagesJson r.Messages, ',' ::
        (appendString "stream" ++ ':' :: (marshalBool r.Stream ++ '\x7d' :: rest))) :=
    parseValue_messages r.Messages (g + 5) 1 _ hdepth (by omega)
  have h2 : parseMembers (g + 6) 1
      (appendString "messages" ++ ':' :: (marshalMessages r.Messages ++ ',' ::
        (appendString "stream" ++ ':' :: (marshalBool r.Stream ++ '\x7d' :: rest))))
      = .ok ([("messages", messagesJson r.Messages), ("stream", .bool r.Stream)], rest) :=
    parseMembers_more (g + 5) 1 "messages" (marshalMessages r.Messages)
      (messagesJson r.Messages) _ rest _ v2 h3
  have v1 : parseValue (g + 6) 1 (appendString r.Model ++ ',' ::
      (appendString "messages" ++ ':' :: (marshalMessages r.Messages ++ ',' ::
        (appendString "stream" ++ ':' :: (marshalBool r.Stream ++ '\x7d' :: rest)))))
      = .ok (.str r.Model, ',' ::
      (appendString "messages" ++ ':' :: (marshalMessages r.Messages ++ ',' ::
        (appendString "stream" ++ ':' :: (marshalBool r.Stream ++ '\x7d' :: rest))))) :=
    parseValue_string (g + 5) 1 r.Model _
  have h1 : parseMembers (g + 7) (0 + 1)
      (appendString "model" ++ ':' :: (appendString r.Model ++ ',' ::
      (appendString "messages" ++ ':' :: (marshalMessages r.Messages ++ ',' ::
        (appendString "stream" ++ ':' :: (marshalBool r.Stream ++ '\x7d' :: rest))))))
      = .ok ([("model", .str r.Model), ("messages", messagesJson r.Messages),
          ("stream", .bool r.Stream)], rest) :=
    parseMembers_more (g + 6) 1 "model" (appendString r.Model) (.str r.Model) _ rest _ v1 h2
  rw [marshalText_eq]
  exact parseValue_object (g + 7) 0 "model" _ _ rest hdepth0 h1

theorem joinComma_length (l : List Message) :
    l.length ≤ (joinComma (l.map marshalMessage)).length + 1 := by
  induction l with
  | nil => simp
  | cons m l ih =>
    cases l with
    | nil => simp
    | cons m' l =>
      simp only [List.map_cons, List.length_cons] at ih ⊢
      rw [joinComma_cons_cons]
      simp only [List.length_append, List.length_cons]
      omega

theorem marshalText_length (r : OpenAIRequest) :
    (r.Messages.getD []).length + 8 ≤ (marshalText r).length + 1 := by
  have h := marshalText_eq r []
  simp only [List.append_nil] at h
  have hlen : (r.Messages.getD []).length ≤ (marshalMessages r.Messages).length := by
    cases r.Messages with
    | none => simp
    | some l =>
      have := joinComma_length l
      simp only [marshalMessages, List.length_cons, List.length_append, Option.getD_some]
      omega
  rw [h]
  simp only [List.length_cons, List.length_append, appendString]
  omega

/-- `readValue` on the encoding of a request. -/
theorem readValue_marshalText (r : OpenAIRequest) :
    readValue (marshalText r) = .ok r.toJson := by
  have h := parseValue_request r (2 * (marshalText r).length + 1) []
    (by have := marshalText_length r; omega)
  simp only [List.append_nil] at h
  obtain ⟨tl, htl⟩ : ∃ tl, marshalText r = '\x7b' :: tl := by
    have := marshalText_eq r []
    simp only [List.append_nil] at this
    exact ⟨_, this⟩
  unfold readValue
  rw [h, htl, skipSpace_cons_of_not_space _ _ (by decide)]

theorem decodeMessage_toJson (m : Message) (old : Message) :
    decodeMessage old none m.toJson = (m, none) := by
  simp [decodeMessage, Message.toJson, decodeMessageMember, lookupField, List.find?]

theorem decodeElems_toJson (l : List Message) (backing : List Message) :
    decodeElems (l.map Message.toJson) backing none = (l, backing.drop l.length, none) := by
  induction l generalizing backing with
  | nil => simp [decodeElems]
  | cons m l ih =>
    simp only [List.map_cons, decodeElems, decodeMessage_toJson, ih]
    simp

/-- Storing the scanned value of a request into the fresh struct gives the
request back. -/
theorem decodeValue_toJson (r : OpenAIRequest) :
    (decodeValue r.toJson OpenAIRequest.zero).req = r
      ∧ (decodeValue r.toJson OpenAIRequest.zero).err = none := by
  obtain ⟨model, msgs, stream⟩ := r
  cases msgs with
  | none =>
    simp [decodeValue, OpenAIRequest.toJson, decodeMember, lookupField, List.find?,
      messagesJson, OpenAIRequest.zero]
  | some l =>
    cases l with
    | nil =>
      simp [decodeValue, OpenAIRequest.toJson, decodeMember, lookupField, List.find?,
        messagesJson, OpenAIRequest.zero]
    | cons m l =>
      have h := decodeElems_toJson (m :: l) []
      simp only [List.map_cons] at h
      simp [decodeValue, OpenAIRequest.toJson, decodeMember, lookupField, List.find?,
        messagesJson, OpenAIRequest.zero, h]

/-- C5: for every request, `json.Marshal` succeeds; binding its output gives the
request back without error, the messages in the same order; and the output is
an object with exactly the members `model`, `messages`, `stream`, in this
order. -/
theorem marshal_then_bind_roundtrip (req : OpenAIRequest) :
    ∃ text, jsonMarshal req = .ok text
      ∧ ShouldBind text = (req, none)
      ∧ ∃ model messages stream, readValue text.data
          = .ok (Json.obj [("model", model), ("messages", messages), ("stream", stream)]) := by
  refine ⟨String.mk (marshalText req), rfl, ?_, _, _, _, readValue_marshalText req⟩
  have h := decodeValue_toJson req
  simp only [ShouldBind, readValue_marshalText, h.1, h.2]

/-! ## The recursion bound of the scanner is never reached -/



theorem skipSpace_length (s : List Char) : (skipSpace s).length ≤ s.length := by
  induction s with
  | nil => simp [skipSpace]
  | cons c r ih =>
    simp only [skipSpace]
    split
    · simp only [List.length_cons]; omega
    · simp

theorem consChar_ok {c : Char} {p : Parse (List Char)} {str rest : List Char}
    (h : consChar c p = .ok (str, rest)) : ∃ str', p = .ok (str', rest) := by
  unfold consChar at h
  split at h
  · cases h
  · rename_i s r
    simp only [Except.ok.injEq, Prod.mk.injEq] at h
    exact ⟨s, by rw [h.2]⟩

theorem consChar_error {c : Char} {p : Parse (List Char)} {e : String}
    (h : consChar c p = .error e) : p = .error e := by
  unfold consChar at h
  split at h
  · rename_i e'
    simp only [Except.error.injEq] at h
    rw [h]
  · cases h

/-- A string literal that is read leaves less input than it was given. -/
theorem parseStringBody_length (f : Nat) (s str rest : List Char)
    (h : parseStringBody f s = .ok (str, rest)) : rest.length < s.length := by
  induction f generalizing s str with
  | zero => simp [parseStringBody] at h
  | succ f ih =>
    cases s with
    | nil => simp [parseStringBody] at h
    | cons c r =>
      rw [parseStringBody.eq_def] at h
      simp only at h
      split at h
      · simp only [Except.ok.injEq, Prod.mk.injEq] at h
        rw [← h.2]; simp
      · split at h
        · split at h
          · cases h
          · rename_i e r1
            split at h
            · split at h
              · cases h
              · split at h
                · cases h
                · split at h
                  · split at h
                    · obtain ⟨_, hp⟩ := consChar_ok h
                      have := ih _ _ hp
                      simp only [List.length_drop, List.length_cons] at this ⊢
                      omega
                    · obtain ⟨_, hp⟩ := consChar_ok h
                      have := ih _ _ hp
                      simp only [List.length_drop, List.length_cons] at this ⊢
                      omega
                  · obtain ⟨_, hp⟩ := consChar_ok h
                    have := ih _ _ hp
                    simp only [List.length_drop, List.length_cons] at this ⊢
                    omega
            · split at h
              · obtain ⟨_, hp⟩ := consChar_ok h
                have := ih _ _ hp
                simp only [List.length_cons] at this ⊢
                omega
              · cases h
        · split at h
          · cases h
          · obtain ⟨_, hp⟩ := consChar_ok h
            have := ih _ _ hp
            simp only [List.length_cons] at this ⊢
            omega

/-- With a bound above the length of the input, the string parser does not
reach the bound. -/
theorem parseStringBody_fuel (f : Nat) (s : List Char) (hf : s.length < f) :
    parseStringBody f s ≠ .error tooLong := by
  induction f generalizing s with
  | zero => omega
  | succ f ih =>
    intro h
    cases s with
    | nil => rw [parseStringBody] at h; exact absurd h (by decide)
    | cons c r =>
      rw [parseStringBody.eq_def] at h
      simp only at h
      simp only [List.length_cons] at hf
      split at h
      · cases h
      · split at h
        · split at h
          · exact absurd h (by decide)
          · rename_i e r1
            simp only [List.length_cons] at hf
            split at h
            · split at h
              · exact absurd h (by decide)
              · split at h
                · exact absurd h (by decide)
                · split at h
                  · split at h
                    · exact ih _ (by simp only [List.length_drop]; omega) (consChar_error h)
                    · exact ih _ (by simp only [List.length_drop]; omega) (consChar_error h)
                  · exact ih _ (by simp only [List.length_drop]; omega) (consChar_error h)
            · split at h
              · exact ih _ (by omega) (consChar_error h)
              · exact absurd h (by decide)
        · split at h
          · exact absurd h (by decide)
          · exact ih _ (by omega) (consChar_error h)

theorem parseString_length (s str rest : List Char) (h : parseString s = .ok (str, rest)) :
    rest.length < s.length := parseStringBody_length _ s str rest h

theorem parseString_fuel (s : List Char) : parseString s ≠ .error tooLong :=
  parseStringBody_fuel _ s (by omega)


theorem skipDigits_length (s : List Char) : (skipDigits s).length ≤ s.length := by
  induction s with
  | nil => simp [skipDigits]
  | cons c r ih =>
    simp only [skipDigits]
    split
    · simp only [List.length_cons]; omega
    · simp

theorem scanDigits_length (msg : String) (s rest : List Char)
    (h : scanDigits msg s = .ok rest) : rest.length < s.length := by
  unfold scanDigits at h
  split at h
  · cases h
  · rename_i c r
    split at h
    · simp only [Except.ok.injEq] at h
      have := skipDigits_length r
      rw [h] at this
      simp only [List.length_cons]
      omega
    · cases h

theorem scanDigits_fuel (msg : String) (s : List Char) (hmsg : msg ≠ tooLong) :
    scanDigits msg s ≠ .error tooLong := by
  unfold scanDigits
  split
  · decide
  · split
    · simp
    · simpa using hmsg

theorem scanInt_length (s rest : List Char) (h : scanInt s = .ok rest) :
    rest.length < s.length := by
  unfold scanInt at h
  split at h
  · cases h
  · rename_i d r
    split at h
    · simp only [Except.ok.injEq] at h
      rw [← h]; simp
    · split at h
      · simp only [Except.ok.injEq] at h
        have := skipDigits_length r
        rw [h] at this
        simp only [List.length_cons]
        omega
      · cases h

theorem scanInt_fuel (s : List Char) : scanInt s ≠ .error tooLong := by
  unfold scanInt
  repeat' split
  all_goals (first | decide | simp [tooLong])

theorem scanFraction_length (s rest : List Char) (h : scanFraction s = .ok rest) :
    rest.length ≤ s.length := by
  unfold scanFraction at h
  split at h
  · simp only [Except.ok.injEq] at h
    rw [← h]
  · rename_i p r
    split at h
    · have := scanDigits_length _ _ _ h
      simp only [List.length_cons]
      omega
    · simp only [Except.ok.injEq] at h
      rw [← h]

theorem scanFraction_fuel (s : List Char) : scanFraction s ≠ .error tooLong := by
  unfold scanFraction
  split
  · simp
  · split
    · exact scanDigits_fuel _ _ (by decide)
    · simp

theorem skipSign_length (s : List Char) : (skipSign s).length ≤ s.length := by
  unfold skipSign
  split
  · simp
  · split
    · simp
    · simp

theorem skipMinus_length (s : List Char) : (skipMinus s).length ≤ s.length := by
  unfold skipMinus
  split
  · simp
  · split
    · simp
    · simp

theorem scanExponent_length (s rest : List Char) (h : scanExponent s = .ok rest) :
    rest.length ≤ s.length := by
  unfold scanExponent at h
  split at h
  · simp only [Except.ok.injEq] at h
    rw [← h]
  · rename_i e r
    split at h
    · have := scanDigits_length _ _ _ h
      have := skipSign_length r
      simp only [List.length_cons]
      omega
    · simp only [Except.ok.injEq] at h
      rw [← h]

theorem scanExponent_fuel (s : List Char) : scanExponent s ≠ .error tooLong := by
  unfold scanExponent
  split
  · simp
  · split
    · exact scanDigits_fuel _ _ (by decide)
    · simp

theorem scanNumber_length (s rest : List Char) (h : scanNumber s = .ok rest) :
    rest.length < s.length := by
  unfold scanNumber at h
  split at h
  · cases h
  · rename_i r1 h1
    split at h
    · cases h
    · rename_i r2 h2
      have := scanInt_length _ _ h1
      have := scanFraction_length _ _ h2
      have := scanExponent_length _ _ h
      have := skipMinus_length s
      omega

theorem scanNumber_fuel (s : List Char) : scanNumber s ≠ .error tooLong := by
  unfold scanNumber
  split
  · rename_i e h1
    intro h
    simp only [Except.error.injEq] at h
    exact scanInt_fuel _ (h ▸ h1)
  · split
    · rename_i e h2
      intro h
      simp only [Except.error.injEq] at h
      exact scanFraction_fuel _ (h ▸ h2)
    · exact scanExponent_fuel _

/-- A number literal that is read leaves less input than it was given. -/
theorem parseNumber_length (s lit rest : List Char) (h : parseNumber s = .ok (lit, rest)) :
    rest.length < s.length := by
  unfold parseNumber at h
  split at h
  · cases h
  · rename_i r hr
    simp only [Except.ok.injEq, Prod.mk.injEq] at h
    rw [← h.2]
    exact scanNumber_length _ _ hr

theorem parseNumber_fuel (s : List Char) : parseNumber s ≠ .error tooLong := by
  unfold parseNumber
  split
  · rename_i e he
    intro h
    simp only [Except.error.injEq] at h
    exact scanNumber_fuel _ (h ▸ he)
  · simp

theorem parseWord_length (word : List Char) (v v' : Json) (c : Char) (r rest : List Char)
    (hw : 0 < word.length) (h : parseWord word v (c :: r) = .ok (v', rest)) :
    rest.length < (c :: r).length := by
  unfold parseWord at h
  split at h
  · simp only [Except.ok.injEq, Prod.mk.injEq] at h
    rw [← h.2]
    simp only [List.length_drop, List.length_cons]
    omega
  · split at h <;> cases h

theorem parseWord_fuel (word : List Char) (v : Json) (s : List Char) :
    parseWord word v s ≠ .error tooLong := by
  unfold parseWord
  repeat' split
  all_goals (first | decide | simp [tooLong])

/-- A value, member list or element list that is read leaves less input than
the parser was given. -/
theorem parse_length (f : Nat) :
    (∀ d s v rest, parseValue f d s = .ok (v, rest) → rest.length < s.length)
      ∧ (∀ d s ms rest, parseMembers f d s = .ok (ms, rest) → rest.length < s.length)
      ∧ (∀ d s es rest, parseElements f d s = .ok (es, rest) → rest.length < s.length) := by
  induction f with
  | zero =>
    refine ⟨?_, ?_, ?_⟩ <;> intro d s v rest h
    · simp [parseValue] at h
    · simp [parseMembers] at h
    · simp [parseElements] at h
  | succ f ih =>
    obtain ⟨ihv, ihm, ihe⟩ := ih
    refine ⟨?_, ?_, ?_⟩
    · intro d s v rest h
      rw [parseValue] at h
      have hs := skipSpace_length s
      split at h
      · cases h
      · rename_i c r hsk
        rw [hsk] at hs
        simp only [List.length_cons] at hs
        split at h
        · split at h
          · cases h
          · have hr := skipSpace_length r
            split at h
            · cases h
            · rename_i c1 r1 hsk1
              rw [hsk1] at hr
              simp only [List.length_cons] at hr
              split at h
              · simp only [Except.ok.injEq, Prod.mk.injEq] at h
                rw [← h.2]; omega
              · split at h
                · cases h
                · rename_i ms rest' hm
                  simp only [Except.ok.injEq, Prod.mk.injEq] at h
                  have := ihm _ _ _ _ hm
                  simp only [List.length_cons] at this
                  rw [← h.2]; omega
        · split at h
          · split at h
            · cases h
            · have hr := skipSpace_length r
              split at h
              · cases h
              · rename_i c1 r1 hsk1
                rw [hsk1] at hr
                simp only [List.length_cons] at hr
                split at h
                · simp only [Except.ok.injEq, Prod.mk.injEq] at h
                  rw [← h.2]; omega
                · split at h
                  · cases h
                  · rename_i es rest' he
                    simp only [Except.ok.injEq, Prod.mk.injEq] at h
                    have := ihe _ _ _ _ he
                    simp only [List.length_cons] at this
                    rw [← h.2]; omega
          · split at h
            · split at h
              · cases h
              · rename_i str rest' hp
                simp only [Except.ok.injEq, Prod.mk.injEq] at h
                have := parseString_length _ _ _ hp
                rw [← h.2]; omega
            · split at h
              · have := parseWord_length _ _ _ _ _ _ (by decide) h
                simp only [List.length_cons] at this
                omega
              · split at h
                · have := parseWord_length _ _ _ _ _ _ (by decide) h
                  simp only [List.length_cons] at this
                  omega
                · split at h
                  · have := parseWord_length _ _ _ _ _ _ (by decide) h
                    simp only [List.length_cons] at this
                    omega
                  · split at h
                    · split at h
                      · cases h
                      · rename_i lit rest' hn
                        simp only [Except.ok.injEq, Prod.mk.injEq] at h
                        have := parseNumber_length _ _ _ hn
                        simp only [List.length_cons] at this
                        rw [← h.2]; omega
                    · cases h
    · intro d s ms rest h
      rw [parseMembers] at h
      have hs := skipSpace_length s
      split at h
      · cases h
      · rename_i c r hsk
        rw [hsk] at hs
        simp only [List.length_cons] at hs
        split at h
        · split at h
          · cases h
          · rename_i key r1 hp
            have h1 := parseString_length _ _ _ hp
            have hr1 := skipSpace_length r1
            split at h
            · cases h
            · rename_i c1 r2 hsk1
              rw [hsk1] at hr1
              simp only [List.length_cons] at hr1
              split at h
              · split at h
                · cases h
                · rename_i v r3 hv
                  have h3 := ihv _ _ _ _ hv
                  have hr3 := skipSpace_length r3
                  split at h
                  · cases h
                  · rename_i c3 r4 hsk3
                    rw [hsk3] at hr3
                    simp only [List.length_cons] at hr3
                    split at h
                    · split at h
                      · cases h
                      · rename_i ms' r5 hm
                        simp only [Except.ok.injEq, Prod.mk.injEq] at h
                        have := ihm _ _ _ _ hm
                        rw [← h.2]; omega
                    · split at h
                      · simp only [Except.ok.injEq, Prod.mk.injEq] at h
                        rw [← h.2]; omega
                      · cases h
              · cases h
        · cases h
    · intro d s es rest h
      rw [parseElements] at h
      split at h
      · cases h
      · rename_i v r1 hv
        have h1 := ihv _ _ _ _ hv
        have hr1 := skipSpace_length r1
        split at h
        · cases h
        · rename_i c r2 hsk
          rw [hsk] at hr1
          simp only [List.length_cons] at hr1
          split at h
          · split at h
            · cases h
            · rename_i es' r3 he
              simp only [Except.ok.injEq, Prod.mk.injEq] at h
              have := ihe _ _ _ _ he
              rw [← h.2]; omega
          · split at h
            · simp only [Except.ok.injEq, Prod.mk.injEq] at h
              rw [← h.2]; omega
            · cases h

/-- With a bound of twice the length of the input and one more, the parsers do
not reach their recursion bound. -/
theorem parse_fuel (f : Nat) :
    (∀ d s, 2 * s.length + 1 ≤ f → parseValue f d s ≠ .error tooLong)
      ∧ (∀ d s, 2 * s.length + 1 ≤ f → parseMembers f d s ≠ .error tooLong)
      ∧ (∀ d s, 2 * s.length + 2 ≤ f → parseElements f d s ≠ .error tooLong) := by
  induction f with
  | zero =>
    refine ⟨?_, ?_, ?_⟩ <;> intro d s hf <;> omega
  | succ f ih =>
    obtain ⟨ihv, ihm, ihe⟩ := ih
    refine ⟨?_, ?_, ?_⟩
    · intro d s hf h
      rw [parseValue] at h
      have hs := skipSpace_length s
      split at h
      · simp [tooLong] at h
      · rename_i c r hsk
        rw [hsk] at hs
        simp only [List.length_cons] at hs
        split at h
        · split at h
          · simp [tooLong] at h
          · have hr := skipSpace_length r
            split at h
            · simp [tooLong] at h
            · rename_i c1 r1 hsk1
              rw [hsk1] at hr
              simp only [List.length_cons] at hr
              split at h
              · cases h
              · split at h
                · rename_i e he
                  simp only [Except.error.injEq] at h
                  exact ihm _ _ (by simp only [List.length_cons]; omega) (h ▸ he)
                · cases h
        · split at h
          · split at h
            · simp [tooLong] at h
            · have hr := skipSpace_length r
              split at h
              · simp [tooLong] at h
              · rename_i c1 r1 hsk1
                rw [hsk1] at hr
                simp only [List.length_cons] at hr
                split at h
                · cases h
                · split at h
                  · rename_i e he
                    simp only [Except.error.injEq] at h
                    exact ihe _ _ (by simp only [List.length_cons]; omega) (h ▸ he)
                  · cases h
          · split at h
            · split at h
              · rename_i e he
                simp only [Except.error.injEq] at h
                exact parseString_fuel _ (h ▸ he)
              · cases h
            · split at h
              · exact parseWord_fuel _ _ _ h
              · split at h
                · exact parseWord_fuel _ _ _ h
                · split at h
                  · exact parseWord_fuel _ _ _ h
                  · split at h
                    · split at h
                      · rename_i e he
                        simp only [Except.error.injEq] at h
                        exact parseNumber_fuel _ (h ▸ he)
                      · cases h
                    · simp [tooLong] at h
    · intro d s hf h
      rw [parseMembers] at h
      have hs := skipSpace_length s
      split at h
      · simp [tooLong] at h
      · rename_i c r hsk
        rw [hsk] at hs
        simp only [List.length_cons] at hs
        split at h
        · split at h
          · rename_i e he
            simp only [Except.error.injEq] at h
            exact parseString_fuel _ (h ▸ he)
          · rename_i key r1 hp
            have h1 := parseString_length _ _ _ hp
            have hr1 := skipSpace_length r1
            split at h
            · simp [tooLong] at h
            · rename_i c1 r2 hsk1
              rw [hsk1] at hr1
              simp only [List.length_cons] at hr1
              split at h
              · split at h
                · rename_i e he
                  simp only [Except.error.injEq] at h
                  exact ihv _ _ (by omega) (h ▸ he)
                · rename_i v r3 hv
                  have h3 := (parse_length f).1 _ _ _ _ hv
                  have hr3 := skipSpace_length r3
                  split at h
                  · simp [tooLong] at h
                  · rename_i c3 r4 hsk3
                    rw [hsk3] at hr3
                    simp only [List.length_cons] at hr3
                    split at h
                    · split at h
                      · rename_i e he
                        simp only [Except.error.injEq] at h
                        exact ihm _ _ (by omega) (h ▸ he)
                      · cases h
                    · split at h
                      · cases h
                      · simp [tooLong] at h
              · simp [tooLong] at h
        · simp [tooLong] at h
    · intro d s hf h
      rw [parseElements] at h
      split at h
      · rename_i e he
        simp only [Except.error.injEq] at h
        exact ihv _ _ (by omega) (h ▸ he)
      · rename_i v r1 hv
        have h1 := (parse_length f).1 _ _ _ _ hv
        have hr1 := skipSpace_length r1
        split at h
        · simp [tooLong] at h
        · rename_i c r2 hsk
          rw [hsk] at hr1
          simp only [List.length_cons] at hr1
          split at h
          · split at h
            · rename_i e he
              simp only [Except.error.injEq] at h
              exact ihe _ _ (by omega) (h ▸ he)
            · cases h
          · split at h
            · cases h
            · simp [tooLong] at h

/-- Reading the first value of a body never fails for lack of fuel: the result
of `readValue` is a value or one of the decoder's own errors. -/
theorem readValue_fuel (body : List Char) : readValue body ≠ .error tooLong := by
  unfold readValue
  split
  · simp [tooLong]
  · split
    · rename_i e he
      intro h
      simp only [Except.error.injEq] at h
      exact (parse_fuel _).1 0 body (le_refl _) (h ▸ he)
    · simp

end ModelReplace
